import Mathlib

/-!
Shallow embedding of the net_exercise backup/restore engine (main.go and the
pkg/backup, pkg/restore variants).  Live cluster objects, backup files and the
nine per-kind exporters/importers are modelled as pure functions over explicit
state; every call issued to the cluster client is recorded in a trace.
-/

set_option linter.unusedVariables false

namespace NetExercise

/-- The nine resource kinds handled by the engine (keys of the `restoreFuncs`
map in `restoreResources`). -/
inductive Kind where
  | pvc
  | pod
  | replicaset
  | deployment
  | configmap
  | service
  | statefulset
  | serviceaccount
  | secret
deriving DecidableEq, Repr

/-- A cluster object as the engine sees it: the metadata fields the code
manipulates (`Name`, `Namespace`, `ResourceVersion`), the two service address
fields (`Spec.ClusterIP`, `Spec.ClusterIPs`), and an opaque payload standing
for every remaining field.  `ns` is the `Namespace` field (namespace is a
reserved word in Lean). -/
structure K8sObject where
  name : String
  ns : String
  resourceVersion : String
  clusterIP : String
  clusterIPs : Option (List String)
  payload : String
deriving DecidableEq, Repr

/-- One live object in the cluster, indexed by kind and the namespace it was
created in (`ens` = entry namespace). -/
structure Entry where
  kind : Kind
  ens : String
  obj : K8sObject
deriving DecidableEq, Repr

/-- Cluster state: the list of live objects, plus a set of (kind, namespace,
name) triples on which a get-by-name call fails with an error other than
NotFound (modelling transient client failures). -/
structure Cluster where
  live : List Entry
  getFaults : List (Kind × String × String)
deriving DecidableEq, Repr

/-- A call issued to the cluster client.  The client capability also offers
update and delete; the engine is expected never to use them. -/
inductive Op where
  | listOp (k : Kind) (ns : String)
  | getOp (k : Kind) (ns : String) (name : String)
  | createOp (k : Kind) (ns : String) (obj : K8sObject)
  | updateOp (k : Kind) (ns : String) (obj : K8sObject)
  | deleteOp (k : Kind) (ns : String) (name : String)
deriving DecidableEq, Repr

/-- Does the cluster hold an object of this kind and name in this namespace? -/
def hasKey (l : List Entry) (k : Kind) (ns name : String) : Bool :=
  l.any (fun e => e.kind == k && e.ens == ns && e.obj.name == name)

/-- `List(kind, namespace)`: the live objects of a kind in a namespace, in
listing order. -/
def listObjs (c : Cluster) (k : Kind) (ns : String) : List K8sObject :=
  (c.live.filter (fun e => e.kind == k && e.ens == ns)).map Entry.obj

/-- Result of a get-by-name call. -/
inductive GetResult where
  | found (o : K8sObject)
  | notFound
  | errOther
deriving DecidableEq, Repr

/-- `Get(kind, namespace, name)`: an injected fault yields an error other than
NotFound; otherwise the object is found iff it is live. -/
def getByName (c : Cluster) (k : Kind) (ns name : String) : GetResult :=
  if (k, ns, name) ∈ c.getFaults then .errOther
  else
    match c.live.find? (fun e => e.kind == k && e.ens == ns && e.obj.name == name) with
    | some e => .found e.obj
    | none => .notFound

/-- Errors an importer can return. -/
inductive RErr where
  | alreadyExists
  | getError
deriving DecidableEq, Repr

/-- `Create(kind, namespace, object)`: rejected when an object of the same
kind and name is already live in the namespace, otherwise appended. -/
def createObj (c : Cluster) (k : Kind) (ns : String) (o : K8sObject) :
    Except RErr Cluster :=
  if hasKey c.live k ns o.name then .error .alreadyExists
  else .ok { c with live := c.live ++ [⟨k, ns, o⟩] }

/-! ## File storage

A backup directory is a list of (filename, content) pairs; content is the
object a JSON file deserializes to.  Marshal/unmarshal of the fields the engine
touches is the identity on this record (Go's `json.Unmarshal` fills the fields
present in the target struct and ignores the rest). -/

abbrev Dir := List (String × K8sObject)

def fileExists (d : Dir) (fname : String) : Bool :=
  d.any (fun e => e.1 == fname)

/-- `os.WriteFile`: replace the content if the file exists, else append it. -/
def writeFile (d : Dir) (fname : String) (o : K8sObject) : Dir :=
  if fileExists d fname then
    d.map (fun e => if e.1 == fname then (fname, o) else e)
  else d ++ [(fname, o)]

/-- Read the content stored at a filename (first entry wins, as in a real
directory where names are unique). -/
def lookupFile (d : Dir) (fname : String) : Option K8sObject :=
  match d with
  | [] => none
  | e :: rest => if e.1 == fname then some e.2 else lookupFile rest fname

/-- `strings.HasPrefix s pre`, on the character lists of the strings. -/
def strStarts (pre s : String) : Bool := pre.data.isPrefixOf s.data

def strEnds (suf s : String) : Bool := suf.data.isSuffixOf s.data

/-- A filename matches the glob `pre*suf` (`*` spanning no separator; backup
filenames contain none). -/
def matchGlob (pre suf s : String) : Bool :=
  strStarts pre s && strEnds suf s &&
    decide (pre.data.length + suf.data.length ≤ s.data.length)

/-- `filepath.Glob(dir, pre ++ "*.json")`: the directory entries whose name
matches the pattern (order: directory order; the properties proved below do
not depend on it). -/
def glob (d : Dir) (pre : String) : Dir :=
  d.filter (fun e => matchGlob pre ".json" e.1)

/-- `ioutil.ReadDir` followed by a `strings.HasPrefix` test, as the service and
secret importers do (note: no `.json` suffix check there). -/
def dirFilter (d : Dir) (pre : String) : Dir :=
  d.filter (fun e => strStarts pre e.1)

/-! ## Exporters

Each `BackupX` function lists the live objects of its kind and writes one file
per object, returning the updated directory together with the trace of cluster
calls it issued (a single List call).  Six kinds serialize the object as
listed; config-map, stateful-set and service first clear the namespace and
resourceVersion fields and skip objects whose file already exists. -/

/-- Fold shared by the six exporters that write every object unmodified,
replacing any existing file (`BackupPVCs`, `BackupPods`, `BackupReplicaSets`,
`BackupDeployments`, `BackupServiceAccounts`, `BackupSecrets`); `fname'` is the
kind's filename convention. -/
def plainExportFold (fname' : K8sObject → String) (objs : List K8sObject)
    (d : Dir) : Dir :=
  match objs with
  | [] => d
  | o :: rest => plainExportFold fname' rest (writeFile d (fname' o) o)

/-- Fold shared by `BackupConfigMaps`, `BackupStatefulSet` and
`BackupServices`: skip objects whose name satisfies `skipName` (the root-CA
check; constantly false for the other two kinds), skip objects whose file
already exists, otherwise clear namespace and resourceVersion and write. -/
def skipExportFold (pre : String) (skipName : String → Bool)
    (objs : List K8sObject) (d : Dir) : Dir :=
  match objs with
  | [] => d
  | o :: rest =>
    if skipName o.name then skipExportFold pre skipName rest d
    else
      let fname := pre ++ o.name ++ ".json"
      if fileExists d fname then skipExportFold pre skipName rest d
      else skipExportFold pre skipName rest
        (writeFile d fname { o with ns := "", resourceVersion := "" })

/-- `BackupPVCs`: bare `<name>.json`, no kind prefix. -/
def BackupPVCs (c : Cluster) (ns : String) (d : Dir) : Dir × List Op :=
  (plainExportFold (fun o => o.name ++ ".json") (listObjs c .pvc ns) d,
   [.listOp .pvc ns])

def BackupPods (c : Cluster) (ns : String) (d : Dir) : Dir × List Op :=
  (plainExportFold (fun o => "pod-" ++ o.name ++ ".json") (listObjs c .pod ns) d,
   [.listOp .pod ns])

def BackupSecrets (c : Cluster) (ns : String) (d : Dir) : Dir × List Op :=
  (plainExportFold (fun o => "secret-" ++ o.name ++ ".json")
     (listObjs c .secret ns) d,
   [.listOp .secret ns])

def BackupReplicaSets (c : Cluster) (ns : String) (d : Dir) : Dir × List Op :=
  (plainExportFold (fun o => "replicaset-" ++ o.name ++ ".json")
     (listObjs c .replicaset ns) d,
   [.listOp .replicaset ns])

def BackupDeployments (c : Cluster) (ns : String) (d : Dir) : Dir × List Op :=
  (plainExportFold (fun o => "deployment-" ++ o.name ++ ".json")
     (listObjs c .deployment ns) d,
   [.listOp .deployment ns])

def BackupServiceAccounts (c : Cluster) (ns : String) (d : Dir) : Dir × List Op :=
  (plainExportFold (fun o => "serviceaccount-" ++ o.name ++ ".json")
     (listObjs c .serviceaccount ns) d,
   [.listOp .serviceaccount ns])

/-- `BackupConfigMaps`: skips the config-map named `kube-root-ca.crt`, skips
files that already exist, clears namespace and resourceVersion before
writing. -/
def BackupConfigMaps (c : Cluster) (ns : String) (d : Dir) : Dir × List Op :=
  (skipExportFold "configmap-" (fun n => n == "kube-root-ca.crt")
     (listObjs c .configmap ns) d,
   [.listOp .configmap ns])

def BackupStatefulSet (c : Cluster) (ns : String) (d : Dir) : Dir × List Op :=
  (skipExportFold "statefulset-" (fun _ => false)
     (listObjs c .statefulset ns) d,
   [.listOp .statefulset ns])

def BackupServices (c : Cluster) (ns : String) (d : Dir) : Dir × List Op :=
  (skipExportFold "service-" (fun _ => false) (listObjs c .service ns) d,
   [.listOp .service ns])

/-- `performBackup`'s exporter sequence over a freshly created directory:
PVCs, Pods, ReplicaSets, Deployments, ConfigMaps, StatefulSets, Services,
ServiceAccounts, Secrets. -/
def RunBackup (c : Cluster) (ns : String) (d : Dir) : Dir × List Op :=
  let r1 := BackupPVCs c ns d
  let r2 := BackupPods c ns r1.1
  let r3 := BackupReplicaSets c ns r2.1
  let r4 := BackupDeployments c ns r3.1
  let r5 := BackupConfigMaps c ns r4.1
  let r6 := BackupStatefulSet c ns r5.1
  let r7 := BackupServices c ns r6.1
  let r8 := BackupServiceAccounts c ns r7.1
  let r9 := BackupSecrets c ns r8.1
  (r9.1, r1.2 ++ r2.2 ++ r3.2 ++ r4.2 ++ r5.2 ++ r6.2 ++ r7.2 ++ r8.2 ++ r9.2)

/-! ## Importers

Each importer returns the final cluster, the trace of cluster calls it issued,
and `none` or the error it aborted with. -/

structure RunResult where
  cluster : Cluster
  trace : List Op
  err : Option RErr
deriving DecidableEq, Repr

/-- The per-file normalization of the seven importers that set the target
namespace and clear resourceVersion (`restorePVC`, `restorePod`,
`restoreReplicaSet`, `restoreDeployment`, `restoreStatefulSet`,
`restoreServiceAccounts`, `restoreSecrets`). -/
def tfMeta (ns : String) (o : K8sObject) : K8sObject :=
  { o with ns := ns, resourceVersion := "" }

/-- `restoreConfigMap` applies no normalization at all: the deserialized
object is passed to create as read from the file. -/
def tfCM (ns : String) (o : K8sObject) : K8sObject := o

/-- `restoreServices` additionally clears the two cluster address fields. -/
def tfSvc (ns : String) (o : K8sObject) : K8sObject :=
  { o with ns := ns, resourceVersion := "", clusterIP := "", clusterIPs := none }

/-- The list-scan importer loop (`restorePVC`, `restorePod`,
`restoreReplicaSet`, `restoreDeployment`, `restoreConfigMap`,
`restoreStatefulSet`): the live listing is snapshotted once per call in
`existing`; each file's object is normalized by `tf`, skipped if its name
appears in the snapshot, otherwise created; a create error aborts the call. -/
def scanLoop (k : Kind) (tf : String → K8sObject → K8sObject) (ns : String)
    (existing : List K8sObject) (files : List (String × K8sObject))
    (c : Cluster) (tr : List Op) : RunResult :=
  match files with
  | [] => ⟨c, tr, none⟩
  | (_, f0) :: rest =>
    if existing.any (fun e => e.name == (tf ns f0).name) then
      scanLoop k tf ns existing rest c tr
    else
      match createObj c k ns (tf ns f0) with
      | .ok c' =>
        scanLoop k tf ns existing rest c' (tr ++ [.createOp k ns (tf ns f0)])
      | .error e => ⟨c, tr ++ [.createOp k ns (tf ns f0)], some e⟩

/-- The direct-get importer loop (`restoreServices`, `restoreServiceAccounts`,
`restoreSecrets`): one get-by-name per file; found means skip, NotFound means
create, any other get error aborts the call.  The normalization `tf` is
applied before the create; since every `tf` leaves the name unchanged, folding
it in before the get (as `restoreServices`/`restoreSecrets` literally do, and
`restoreServiceAccounts` does just after the get) is observationally
identical. -/
def dgLoop (k : Kind) (tf : String → K8sObject → K8sObject) (ns : String)
    (files : List (String × K8sObject)) (c : Cluster) (tr : List Op) :
    RunResult :=
  match files with
  | [] => ⟨c, tr, none⟩
  | (_, f0) :: rest =>
    match getByName c k ns (tf ns f0).name with
    | .found _ => dgLoop k tf ns rest c (tr ++ [.getOp k ns (tf ns f0).name])
    | .errOther => ⟨c, tr ++ [.getOp k ns (tf ns f0).name], some .getError⟩
    | .notFound =>
      match createObj c k ns (tf ns f0) with
      | .ok c' =>
        dgLoop k tf ns rest c'
          (tr ++ [.getOp k ns (tf ns f0).name, .createOp k ns (tf ns f0)])
      | .error e =>
        ⟨c, tr ++ [.getOp k ns (tf ns f0).name, .createOp k ns (tf ns f0)],
          some e⟩

/-- `restorePVC(file, namespace, backupDir, clientset)`: lists live PVCs,
iterates over `pvc-*.json` (the `file` argument is ignored, as in the
source). -/
def restorePVC (file ns : String) (backupDir : Dir) (c : Cluster) : RunResult :=
  scanLoop .pvc tfMeta ns (listObjs c .pvc ns) (glob backupDir "pvc-") c
    [.listOp .pvc ns]

def restorePod (file ns : String) (backupDir : Dir) (c : Cluster) : RunResult :=
  scanLoop .pod tfMeta ns (listObjs c .pod ns) (glob backupDir "pod-") c
    [.listOp .pod ns]

def restoreReplicaSet (file ns : String) (backupDir : Dir) (c : Cluster) :
    RunResult :=
  scanLoop .replicaset tfMeta ns (listObjs c .replicaset ns)
    (glob backupDir "replicaset-") c [.listOp .replicaset ns]

def restoreDeployment (file ns : String) (backupDir : Dir) (c : Cluster) :
    RunResult :=
  scanLoop .deployment tfMeta ns (listObjs c .deployment ns)
    (glob backupDir "deployment-") c [.listOp .deployment ns]

/-- `restoreConfigMap`: the only importer that neither sets the namespace nor
clears resourceVersion on the deserialized object. -/
def restoreConfigMap (file ns : String) (backupDir : Dir) (c : Cluster) :
    RunResult :=
  scanLoop .configmap tfCM ns (listObjs c .configmap ns)
    (glob backupDir "configmap-") c [.listOp .configmap ns]

def restoreStatefulSet (file ns : String) (backupDir : Dir) (c : Cluster) :
    RunResult :=
  scanLoop .statefulset tfMeta ns (listObjs c .statefulset ns)
    (glob backupDir "statefulset-") c [.listOp .statefulset ns]

/-- `restoreServices`: scans the directory for names with the `service-`
prefix (no `.json` check), clears namespace/resourceVersion/ClusterIP(s), then
get-by-name and conditional create. -/
def restoreServices (file ns : String) (backupDir : Dir) (c : Cluster) :
    RunResult :=
  dgLoop .service tfSvc ns (dirFilter backupDir "service-") c []

/-- `restoreServiceAccounts`: reads every file in the directory with no name
filter whatsoever, deserializes it as a service-account, then get-by-name and
conditional create. -/
def restoreServiceAccounts (file ns : String) (backupDir : Dir) (c : Cluster) :
    RunResult :=
  dgLoop .serviceaccount tfMeta ns backupDir c []

def restoreSecrets (file ns : String) (backupDir : Dir) (c : Cluster) :
    RunResult :=
  dgLoop .secret tfMeta ns (dirFilter backupDir "secret-") c []

/-! ## Restore orchestration -/

abbrev Importer := String → String → Dir → Cluster → RunResult

/-- The `restoreFuncs` map of `restoreResources`, in source order.  Go
iterates the map in unspecified order; a fixed enumeration is used here and
none of the properties proved below depend on it. -/
def kindGlobs : List (String × Importer) :=
  [("pvc", restorePVC),
   ("pod", restorePod),
   ("replicaset", restoreReplicaSet),
   ("deployment", restoreDeployment),
   ("configmap", restoreConfigMap),
   ("service", restoreServices),
   ("statefulset", restoreStatefulSet),
   ("serviceaccount", restoreServiceAccounts),
   ("secret", restoreSecrets)]

/-- The inner loop of `restoreResources`: call the kind's importer once per
matched file, aborting on the first error. -/
def runFiles (rf : Importer) (files : List String) (ns : String)
    (backupDir : Dir) (c : Cluster) (tr : List Op) : RunResult :=
  match files with
  | [] => ⟨c, tr, none⟩
  | fn :: rest =>
    match rf fn ns backupDir c with
    | ⟨c2, tr2, some e⟩ => ⟨c2, tr ++ tr2, some e⟩
    | ⟨c2, tr2, none⟩ => runFiles rf rest ns backupDir c2 (tr ++ tr2)

/-- The outer loop of `restoreResources`: for each kind, glob
`<kind>-*.json` and run the importer over the matches. -/
def runKinds (ks : List (String × Importer)) (backupDir : Dir) (ns : String)
    (c : Cluster) (tr : List Op) : RunResult :=
  match ks with
  | [] => ⟨c, tr, none⟩
  | (kname, rf) :: rest =>
    match runFiles rf ((glob backupDir (kname ++ "-")).map (·.1)) ns
        backupDir c tr with
    | ⟨c2, tr2, some e⟩ => ⟨c2, tr2, some e⟩
    | ⟨c2, tr2, none⟩ => runKinds rest backupDir ns c2 tr2

/-- `restoreResources(backupDir, namespace)`. -/
def restoreResources (backupDir : Dir) (ns : String) (c : Cluster) :
    RunResult :=
  runKinds kindGlobs backupDir ns c []

/-! ## Derived notions used by the statements -/

/-- The objects passed to create calls in a trace, with their kind and target
namespace. -/
def createdObjs (tr : List Op) : List (Kind × String × K8sObject) :=
  tr.filterMap (fun op =>
    match op with
    | .createOp k n o => some (k, n, o)
    | _ => none)

def isGet (op : Op) : Bool :=
  match op with
  | .getOp _ _ _ => true
  | _ => false

def countGets (tr : List Op) : Nat := (tr.filter isGet).length

/-- A cluster-mutating call: create, update or delete. -/
def isMutOp (op : Op) : Bool :=
  match op with
  | .createOp _ _ _ => true
  | .updateOp _ _ _ => true
  | .deleteOp _ _ _ => true
  | _ => false

/-! ## Basic lemmas: strings, files, exporter folds -/

theorem strAppend_cancel_right {a b s : String} (h : a ++ s = b ++ s) :
    a = b := by
  have hd : (a ++ s).data = (b ++ s).data := by rw [h]
  simp only [String.data_append] at hd
  exact congrArg String.mk (List.append_cancel_right hd)

theorem strAppend_cancel_left_right {p a b s : String}
    (h : p ++ a ++ s = p ++ b ++ s) : a = b := by
  have hd : (p ++ a ++ s).data = (p ++ b ++ s).data := by rw [h]
  simp only [String.data_append] at hd
  exact congrArg String.mk
    (List.append_cancel_left (List.append_cancel_right hd))

theorem fileExists_iff {d : Dir} {fn : String} :
    fileExists d fn = true ↔ ∃ e ∈ d, e.1 = fn := by
  simp [fileExists, List.any_eq_true, beq_iff_eq]

theorem lookupFile_map_replace_of_exists {d : Dir} {fn : String}
    (o : K8sObject) (h : fileExists d fn = true) :
    lookupFile (d.map (fun e => if e.1 == fn then (fn, o) else e)) fn =
      some o := by
  induction d with
  | nil => simp [fileExists] at h
  | cons x rest ih =>
    by_cases hx : x.1 = fn
    · simp [lookupFile, hx]
    · have h' : fileExists rest fn = true := by
        simpa [fileExists, hx] using h
      simpa [lookupFile, hx] using ih h'

theorem lookupFile_append_right {d : Dir} {fn : String}
    (h : fileExists d fn = false) (l : Dir) :
    lookupFile (d ++ l) fn = lookupFile l fn := by
  induction d with
  | nil => rfl
  | cons x rest ih =>
    have hx : (x.1 == fn) = false := by
      have := (List.any_eq_false.mp h) x (List.mem_cons_self _ _)
      simpa using this
    have h' : fileExists rest fn = false := by
      simp only [fileExists, List.any_cons, hx, Bool.false_or] at h ⊢
      exact h
    simpa [lookupFile, hx] using ih h'

theorem lookupFile_writeFile_self (d : Dir) (fn : String) (o : K8sObject) :
    lookupFile (writeFile d fn o) fn = some o := by
  unfold writeFile
  by_cases h : fileExists d fn
  · rw [if_pos h]
    exact lookupFile_map_replace_of_exists o h
  · rw [if_neg h]
    rw [lookupFile_append_right (Bool.of_not_eq_true h)]
    simp [lookupFile]

theorem lookupFile_append_single_ne {fn' fn : String} (h : fn' ≠ fn)
    (d : Dir) (o : K8sObject) :
    lookupFile (d ++ [(fn', o)]) fn = lookupFile d fn := by
  induction d with
  | nil => simp [lookupFile, h]
  | cons x rest ih =>
    by_cases hx : x.1 = fn
    · simp [lookupFile, hx]
    · simpa [lookupFile, hx] using ih

theorem lookupFile_writeFile_ne {fn' fn : String} (h : fn' ≠ fn) (d : Dir)
    (o : K8sObject) :
    lookupFile (writeFile d fn' o) fn = lookupFile d fn := by
  unfold writeFile
  by_cases he : fileExists d fn'
  · rw [if_pos he]
    clear he
    induction d with
    | nil => rfl
    | cons x rest ih =>
      by_cases hx : x.1 = fn'
      · have hxfn : x.1 ≠ fn := fun hc => h (hx ▸ hc)
        simp only [List.map_cons,
          if_pos (show (x.1 == fn') = true by simp [hx]), lookupFile]
        rw [if_neg (show ¬((fn', o).1 == fn) = true by simp [h]),
          if_neg (show ¬(x.1 == fn) = true by simp [hxfn])]
        exact ih
      · simp only [List.map_cons,
          if_neg (show ¬(x.1 == fn') = true by simp [hx]), lookupFile]
        by_cases hxf : x.1 = fn
        · rw [if_pos (show (x.1 == fn) = true by simp [hxf]),
            if_pos (show (x.1 == fn) = true by simp [hxf])]
        · rw [if_neg (show ¬(x.1 == fn) = true by simp [hxf]),
            if_neg (show ¬(x.1 == fn) = true by simp [hxf])]
          exact ih
  · rw [if_neg he]
    exact lookupFile_append_single_ne h d o

theorem fileExists_of_lookupFile {d : Dir} {fn : String} {o : K8sObject}
    (h : lookupFile d fn = some o) : fileExists d fn = true := by
  induction d with
  | nil => simp [lookupFile] at h
  | cons x rest ih =>
    by_cases hx : x.1 = fn
    · simp [fileExists, hx]
    · simp only [lookupFile, hx] at h
      simp only [fileExists, List.any_cons]
      rw [if_neg (by simpa using hx)] at h
      simp [fileExists] at ih
      simp [ih h]

theorem fileExists_writeFile_self (d : Dir) (fn : String) (o : K8sObject) :
    fileExists (writeFile d fn o) fn = true :=
  fileExists_of_lookupFile (lookupFile_writeFile_self d fn o)

theorem fileExists_writeFile_mono {d : Dir} {fn' : String}
    (h : fileExists d fn' = true) (fn : String) (o : K8sObject) :
    fileExists (writeFile d fn o) fn' = true := by
  by_cases hq : fn = fn'
  · subst hq; exact fileExists_writeFile_self d fn o
  · have := lookupFile_writeFile_ne hq d o
    rcases fileExists_iff.mp h with ⟨e, he, hefn⟩
    unfold writeFile
    by_cases hex : fileExists d fn
    · rw [if_pos hex]
      refine fileExists_iff.mpr ?_
      by_cases hxf : e.1 = fn
      · exact absurd (hxf.symm.trans hefn) hq
      · refine ⟨e, ?_, hefn⟩
        have : (fun x => if x.1 == fn then (fn, o) else x) e = e := by
          simp [hxf]
        exact this ▸ List.mem_map_of_mem _ he
    · rw [if_neg hex]
      exact fileExists_iff.mpr ⟨e, List.mem_append_left _ he, hefn⟩

theorem mem_writeFile {d : Dir} {fn : String} {o : K8sObject}
    {e : String × K8sObject} (h : e ∈ writeFile d fn o) :
    e ∈ d ∨ e = (fn, o) := by
  unfold writeFile at h
  by_cases hex : fileExists d fn
  · rw [if_pos hex] at h
    rcases List.mem_map.mp h with ⟨x, hx, hfx⟩
    by_cases hxf : x.1 = fn
    · right
      rw [← hfx]
      simp [hxf]
    · left
      rw [← hfx]
      simpa [hxf] using hx
  · rw [if_neg hex] at h
    rcases List.mem_append.mp h with h1 | h1
    · exact Or.inl h1
    · right; simpa using h1

/-! Lemmas about the overwrite-export fold. -/

theorem mem_plainExportFold {fname' : K8sObject → String}
    {objs : List K8sObject} {d : Dir} {e : String × K8sObject}
    (h : e ∈ plainExportFold fname' objs d) :
    e ∈ d ∨ ∃ o ∈ objs, e = (fname' o, o) := by
  induction objs generalizing d with
  | nil => exact Or.inl h
  | cons y rest ih =>
    rcases ih h with h1 | ⟨o, ho, heq⟩
    · rcases mem_writeFile h1 with h2 | h2
      · exact Or.inl h2
      · exact Or.inr ⟨y, List.mem_cons_self _ _, h2⟩
    · exact Or.inr ⟨o, List.mem_cons_of_mem _ ho, heq⟩

theorem lookupFile_plainExportFold_ne {fname' : K8sObject → String}
    {objs : List K8sObject} {fn : String}
    (h : ∀ o ∈ objs, fname' o ≠ fn) (d : Dir) :
    lookupFile (plainExportFold fname' objs d) fn = lookupFile d fn := by
  induction objs generalizing d with
  | nil => rfl
  | cons y rest ih =>
    have step : lookupFile (writeFile d (fname' y) y) fn = lookupFile d fn :=
      lookupFile_writeFile_ne (h y (List.mem_cons_self _ _)) d y
    calc lookupFile (plainExportFold fname' rest (writeFile d (fname' y) y)) fn
        = lookupFile (writeFile d (fname' y) y) fn :=
          ih (fun o ho => h o (List.mem_cons_of_mem _ ho)) _
      _ = lookupFile d fn := step

theorem lookupFile_plainExportFold_self {fname' : K8sObject → String}
    {objs : List K8sObject} {x : K8sObject} (hx : x ∈ objs)
    (hnd : (objs.map fname').Nodup) (d : Dir) :
    lookupFile (plainExportFold fname' objs d) (fname' x) = some x := by
  induction objs generalizing d with
  | nil => exact absurd hx (List.not_mem_nil x)
  | cons y rest ih =>
    rcases List.mem_cons.mp hx with rfl | hx'
    · have hne : ∀ o ∈ rest, fname' o ≠ fname' x := by
        intro o ho heq
        have := (List.nodup_cons.mp hnd).1
        exact this (heq ▸ List.mem_map_of_mem fname' ho)
      calc lookupFile (plainExportFold fname' rest (writeFile d (fname' x) x))
            (fname' x)
          = lookupFile (writeFile d (fname' x) x) (fname' x) :=
            lookupFile_plainExportFold_ne hne _
        _ = some x := lookupFile_writeFile_self d (fname' x) x
    · exact ih hx' (List.nodup_cons.mp hnd).2 _

/-! Lemmas about the skip-if-exists export fold. -/

theorem mem_skipExportFold {pre : String} {skipName : String → Bool}
    {objs : List K8sObject} {d : Dir} {e : String × K8sObject}
    (h : e ∈ skipExportFold pre skipName objs d) :
    e ∈ d ∨ ∃ o ∈ objs, skipName o.name = false ∧
      e = (pre ++ o.name ++ ".json", { o with ns := "", resourceVersion := "" }) := by
  induction objs generalizing d with
  | nil => exact Or.inl h
  | cons y rest ih =>
    simp only [skipExportFold] at h
    by_cases hy : skipName y.name
    · rw [if_pos hy] at h
      rcases ih h with h1 | ⟨o, ho, hsk, heq⟩
      · exact Or.inl h1
      · exact Or.inr ⟨o, List.mem_cons_of_mem _ ho, hsk, heq⟩
    · rw [if_neg hy] at h
      by_cases hex : fileExists d (pre ++ y.name ++ ".json")
      · rw [if_pos hex] at h
        rcases ih h with h1 | ⟨o, ho, hsk, heq⟩
        · exact Or.inl h1
        · exact Or.inr ⟨o, List.mem_cons_of_mem _ ho, hsk, heq⟩
      · rw [if_neg hex] at h
        rcases ih h with h1 | ⟨o, ho, hsk, heq⟩
        · rcases mem_writeFile h1 with h2 | h2
          · exact Or.inl h2
          · exact Or.inr ⟨y, List.mem_cons_self _ _,
              Bool.eq_false_iff.mpr hy, h2⟩
        · exact Or.inr ⟨o, List.mem_cons_of_mem _ ho, hsk, heq⟩

theorem lookupFile_skipExportFold {pre : String} {skipName : String → Bool}
    {objs : List K8sObject} {fn : String} {o : K8sObject}
    {d : Dir} (h : lookupFile d fn = some o) :
    lookupFile (skipExportFold pre skipName objs d) fn = some o := by
  induction objs generalizing d with
  | nil => exact h
  | cons y rest ih =>
    simp only [skipExportFold]
    by_cases hy : skipName y.name
    · rw [if_pos hy]
      exact ih h
    · rw [if_neg hy]
      by_cases hex : fileExists d (pre ++ y.name ++ ".json")
      · rw [if_pos hex]
        exact ih h
      · rw [if_neg hex]
        have hne : pre ++ y.name ++ ".json" ≠ fn := by
          intro heq
          rw [heq] at hex
          exact hex (fileExists_of_lookupFile h)
        exact ih ((lookupFile_writeFile_ne hne d _).trans h)

theorem fileExists_skipExportFold_mono {pre : String}
    {skipName : String → Bool} {objs : List K8sObject} {fn : String}
    {d : Dir} (h : fileExists d fn = true) :
    fileExists (skipExportFold pre skipName objs d) fn = true := by
  induction objs generalizing d with
  | nil => exact h
  | cons y rest ih =>
    simp only [skipExportFold]
    by_cases hy : skipName y.name
    · rw [if_pos hy]
      exact ih h
    · rw [if_neg hy]
      by_cases hex : fileExists d (pre ++ y.name ++ ".json")
      · rw [if_pos hex]
        exact ih h
      · rw [if_neg hex]
        exact ih (fileExists_writeFile_mono h _ _)

theorem fileExists_skipExportFold_self {pre : String}
    {skipName : String → Bool} {objs : List K8sObject} {x : K8sObject}
    (hx : x ∈ objs) (hsk : skipName x.name = false) (d : Dir) :
    fileExists (skipExportFold pre skipName objs d)
      (pre ++ x.name ++ ".json") = true := by
  induction objs generalizing d with
  | nil => exact absurd hx (List.not_mem_nil x)
  | cons y rest ih =>
    simp only [skipExportFold]
    rcases List.mem_cons.mp hx with rfl | hx'
    · rw [if_neg (Bool.eq_false_iff.mp hsk)]
      by_cases hex : fileExists d (pre ++ x.name ++ ".json")
      · rw [if_pos hex]
        exact fileExists_skipExportFold_mono hex
      · rw [if_neg hex]
        exact fileExists_skipExportFold_mono
          (fileExists_writeFile_self d _ _)
    · by_cases hy : skipName y.name
      · rw [if_pos hy]
        exact ih hx' _
      · rw [if_neg hy]
        by_cases hex : fileExists d (pre ++ y.name ++ ".json")
        · rw [if_pos hex]
          exact ih hx' _
        · rw [if_neg hex]
          exact ih hx' _

theorem skipExportFold_noop {pre : String} {skipName : String → Bool}
    {objs : List K8sObject} {d : Dir}
    (h : ∀ o ∈ objs, skipName o.name = true ∨
      fileExists d (pre ++ o.name ++ ".json") = true) :
    skipExportFold pre skipName objs d = d := by
  induction objs with
  | nil => rfl
  | cons y rest ih =>
    simp only [skipExportFold]
    have ih' := ih (fun o ho => h o (List.mem_cons_of_mem _ ho))
    rcases h y (List.mem_cons_self _ _) with hy | hy
    · rw [if_pos hy]
      exact ih'
    · by_cases hsy : skipName y.name
      · rw [if_pos hsy]
        exact ih'
      · rw [if_neg hsy, if_pos hy]
        exact ih'

/-- Re-running a skip-if-exists export over its own output is the identity. -/
theorem skipExportFold_idem (pre : String) (skipName : String → Bool)
    (objs : List K8sObject) (d : Dir) :
    skipExportFold pre skipName objs (skipExportFold pre skipName objs d) =
      skipExportFold pre skipName objs d := by
  apply skipExportFold_noop
  intro o ho
  by_cases hsk : skipName o.name
  · exact Or.inl hsk
  · exact Or.inr (fileExists_skipExportFold_self ho
      (Bool.eq_false_iff.mpr hsk) d)

/-! ## Cluster-side bridging lemmas -/

theorem hasKey_iff {l : List Entry} {k : Kind} {ns n : String} :
    hasKey l k ns n = true ↔
      ∃ e ∈ l, e.kind = k ∧ e.ens = ns ∧ e.obj.name = n := by
  simp [hasKey, List.any_eq_true, Bool.and_eq_true, and_assoc]

theorem hasKey_mono {l l' : List Entry} (hsub : ∀ e ∈ l, e ∈ l')
    {k : Kind} {ns n : String} (h : hasKey l k ns n = true) :
    hasKey l' k ns n = true := by
  rcases hasKey_iff.mp h with ⟨e, he, hp⟩
  exact hasKey_iff.mpr ⟨e, hsub e he, hp⟩

theorem hasKey_append_entry (l : List Entry) (k : Kind) (ns : String)
    (o : K8sObject) : hasKey (l ++ [⟨k, ns, o⟩]) k ns o.name = true :=
  hasKey_iff.mpr ⟨⟨k, ns, o⟩, List.mem_append_right _ (List.mem_singleton.mpr rfl),
    rfl, rfl, rfl⟩

theorem listObjs_any_name (c : Cluster) (k : Kind) (ns n : String) :
    ((listObjs c k ns).any (fun e => e.name == n)) = hasKey c.live k ns n := by
  obtain ⟨l, gf⟩ := c
  unfold listObjs hasKey
  induction l with
  | nil => rfl
  | cons e rest ih =>
    simp only [List.filter_cons]
    by_cases h1 : (e.kind == k) = true
    · by_cases h2 : (e.ens == ns) = true
      · simp [h1, h2, ih]
      · simp [h1, h2, ih]
    · simp [h1, ih]

theorem hasKey_eq_isSome_find? (l : List Entry) (k : Kind) (ns n : String) :
    hasKey l k ns n =
      (l.find? (fun e => e.kind == k && e.ens == ns && e.obj.name == n)).isSome := by
  induction l with
  | nil => rfl
  | cons e rest ih =>
    by_cases hp : (e.kind == k && e.ens == ns && e.obj.name == n) = true
    · simp [hasKey, List.find?_cons, hp]
    · simp [hasKey, List.find?_cons, hp] at ih ⊢
      exact ih

theorem getByName_found_inv {c : Cluster} {k : Kind} {ns n : String}
    {o : K8sObject} (h : getByName c k ns n = .found o) :
    (k, ns, n) ∉ c.getFaults ∧ hasKey c.live k ns n = true := by
  unfold getByName at h
  by_cases hf : (k, ns, n) ∈ c.getFaults
  · rw [if_pos hf] at h
    cases h
  · rw [if_neg hf] at h
    refine ⟨hf, ?_⟩
    rw [hasKey_eq_isSome_find?]
    cases hfind : c.live.find?
        (fun e => e.kind == k && e.ens == ns && e.obj.name == n) with
    | none => rw [hfind] at h; cases h
    | some e => simp

theorem getByName_notFound_inv {c : Cluster} {k : Kind} {ns n : String}
    (h : getByName c k ns n = .notFound) :
    (k, ns, n) ∉ c.getFaults ∧ hasKey c.live k ns n = false := by
  unfold getByName at h
  by_cases hf : (k, ns, n) ∈ c.getFaults
  · rw [if_pos hf] at h
    cases h
  · rw [if_neg hf] at h
    refine ⟨hf, ?_⟩
    rw [hasKey_eq_isSome_find?]
    cases hfind : c.live.find?
        (fun e => e.kind == k && e.ens == ns && e.obj.name == n) with
    | none => simp
    | some e => rw [hfind] at h; cases h

theorem getByName_errOther_inv {c : Cluster} {k : Kind} {ns n : String}
    (h : getByName c k ns n = .errOther) : (k, ns, n) ∈ c.getFaults := by
  unfold getByName at h
  by_cases hf : (k, ns, n) ∈ c.getFaults
  · exact hf
  · rw [if_neg hf] at h
    cases hfind : c.live.find?
        (fun e => e.kind == k && e.ens == ns && e.obj.name == n) with
    | none => rw [hfind] at h; cases h
    | some e => rw [hfind] at h; cases h

theorem getByName_found_of {c : Cluster} {k : Kind} {ns n : String}
    (hf : (k, ns, n) ∉ c.getFaults) (hk : hasKey c.live k ns n = true) :
    ∃ o, getByName c k ns n = .found o := by
  unfold getByName
  rw [if_neg hf]
  rw [hasKey_eq_isSome_find?] at hk
  cases hfind : c.live.find?
      (fun e => e.kind == k && e.ens == ns && e.obj.name == n) with
  | none => rw [hfind] at hk; cases hk
  | some e => exact ⟨e.obj, rfl⟩

theorem getByName_errOther_of {c : Cluster} {k : Kind} {ns n : String}
    (hf : (k, ns, n) ∈ c.getFaults) : getByName c k ns n = .errOther := by
  unfold getByName
  rw [if_pos hf]

theorem getByName_notFound_of {c : Cluster} {k : Kind} {ns n : String}
    (hf : (k, ns, n) ∉ c.getFaults) (hk : hasKey c.live k ns n = false) :
    getByName c k ns n = .notFound := by
  unfold getByName
  rw [if_neg hf]
  rw [hasKey_eq_isSome_find?] at hk
  cases hfind : c.live.find?
      (fun e => e.kind == k && e.ens == ns && e.obj.name == n) with
  | none => rfl
  | some e => rw [hfind] at hk; cases hk

theorem createObj_ok_inv {c : Cluster} {k : Kind} {ns : String}
    {o : K8sObject} {c' : Cluster} (h : createObj c k ns o = .ok c') :
    hasKey c.live k ns o.name = false ∧
      c'.live = c.live ++ [⟨k, ns, o⟩] ∧ c'.getFaults = c.getFaults := by
  unfold createObj at h
  by_cases hk : hasKey c.live k ns o.name
  · rw [if_pos hk] at h
    cases h
  · rw [if_neg hk] at h
    cases h
    exact ⟨Bool.eq_false_iff.mpr hk, rfl, rfl⟩

theorem createObj_ok_of {c : Cluster} {k : Kind} {ns : String}
    {o : K8sObject} (hk : hasKey c.live k ns o.name = false) :
    createObj c k ns o = .ok { c with live := c.live ++ [⟨k, ns, o⟩] } := by
  unfold createObj
  rw [if_neg (by simp [hk])]

theorem createObj_error_inv {c : Cluster} {k : Kind} {ns : String}
    {o : K8sObject} {e : RErr} (h : createObj c k ns o = .error e) :
    hasKey c.live k ns o.name = true := by
  unfold createObj at h
  by_cases hk : hasKey c.live k ns o.name
  · exact hk
  · rw [if_neg hk] at h
    cases h

theorem countGets_append (a b : List Op) :
    countGets (a ++ b) = countGets a + countGets b := by
  unfold countGets
  rw [List.filter_append, List.length_append]

/-! ## Lemmas about the list-scan importer loop -/

theorem scanLoop_mono {k : Kind} {tf : String → K8sObject → K8sObject}
    {ns : String} {existing : List K8sObject}
    {files : List (String × K8sObject)} {c : Cluster} {tr : List Op}
    {e : Entry} (he : e ∈ c.live) :
    e ∈ (scanLoop k tf ns existing files c tr).cluster.live := by
  induction files generalizing c tr with
  | nil => exact he
  | cons f rest ih =>
    obtain ⟨fn, f0⟩ := f
    simp only [scanLoop]
    by_cases hex : existing.any (fun e2 => e2.name == (tf ns f0).name)
    · rw [if_pos hex]
      exact ih he
    · rw [if_neg hex]
      cases hc : createObj c k ns (tf ns f0) with
      | ok c' =>
        refine ih ?_
        rw [(createObj_ok_inv hc).2.1]
        exact List.mem_append_left _ he
      | error e2 => exact he

theorem scanLoop_faults {k : Kind} {tf : String → K8sObject → K8sObject}
    {ns : String} {existing : List K8sObject}
    {files : List (String × K8sObject)} {c : Cluster} {tr : List Op} :
    (scanLoop k tf ns existing files c tr).cluster.getFaults =
      c.getFaults := by
  induction files generalizing c tr with
  | nil => rfl
  | cons f rest ih =>
    obtain ⟨fn, f0⟩ := f
    simp only [scanLoop]
    by_cases hex : existing.any (fun e2 => e2.name == (tf ns f0).name)
    · rw [if_pos hex]
      exact ih
    · rw [if_neg hex]
      cases hc : createObj c k ns (tf ns f0) with
      | ok c' => exact ih.trans (createObj_ok_inv hc).2.2
      | error e2 => rfl

theorem scanLoop_trace {k : Kind} {tf : String → K8sObject → K8sObject}
    {ns : String} {existing : List K8sObject}
    {files : List (String × K8sObject)} {c : Cluster} {tr : List Op}
    {op : Op} (h : op ∈ (scanLoop k tf ns existing files c tr).trace) :
    op ∈ tr ∨ ∃ f ∈ files, op = .createOp k ns (tf ns f.2) := by
  induction files generalizing c tr with
  | nil => exact Or.inl h
  | cons f rest ih =>
    obtain ⟨fn, f0⟩ := f
    simp only [scanLoop] at h
    by_cases hex : existing.any (fun e2 => e2.name == (tf ns f0).name)
    · rw [if_pos hex] at h
      rcases ih h with h1 | ⟨f, hf, heq⟩
      · exact Or.inl h1
      · exact Or.inr ⟨f, List.mem_cons_of_mem _ hf, heq⟩
    · rw [if_neg hex] at h
      revert h
      cases hc : createObj c k ns (tf ns f0) with
      | ok c' =>
        intro h
        rcases ih h with h1 | ⟨f, hf, heq⟩
        · rcases List.mem_append.mp h1 with h2 | h2
          · exact Or.inl h2
          · exact Or.inr ⟨(fn, f0), List.mem_cons_self _ _, by simpa using h2⟩
        · exact Or.inr ⟨f, List.mem_cons_of_mem _ hf, heq⟩
      | error e2 =>
        intro h
        rcases List.mem_append.mp h with h2 | h2
        · exact Or.inl h2
        · exact Or.inr ⟨(fn, f0), List.mem_cons_self _ _, by simpa using h2⟩

theorem scanLoop_sat {k : Kind} {tf : String → K8sObject → K8sObject}
    {ns : String} {existing : List K8sObject}
    {files : List (String × K8sObject)} {c : Cluster} {tr : List Op}
    (hname : ∀ n f, (tf n f).name = f.name)
    (hex : ∀ n, existing.any (fun e => e.name == n) = true →
      hasKey c.live k ns n = true)
    (h : (scanLoop k tf ns existing files c tr).err = none) :
    ∀ f ∈ files,
      hasKey (scanLoop k tf ns existing files c tr).cluster.live
        k ns f.2.name = true := by
  induction files generalizing c tr with
  | nil => intro f hf; exact absurd hf (List.not_mem_nil f)
  | cons fe rest ih =>
    obtain ⟨fn, f0⟩ := fe
    intro f hf
    simp only [scanLoop] at h ⊢
    by_cases hskip : existing.any (fun e2 => e2.name == (tf ns f0).name)
    · rw [if_pos hskip] at h ⊢
      rcases List.mem_cons.mp hf with rfl | hf'
      · have hk : hasKey c.live k ns f0.name = true := by
          have := hex (tf ns f0).name hskip
          rwa [hname] at this
        exact hasKey_mono (fun e2 he2 => scanLoop_mono he2) hk
      · exact ih hex h f hf'
    · rw [if_neg hskip] at h ⊢
      revert h
      cases hc : createObj c k ns (tf ns f0) with
      | ok c' =>
        intro h
        obtain ⟨hnk, hlive, hfa⟩ := createObj_ok_inv hc
        have hex' : ∀ n, existing.any (fun e => e.name == n) = true →
            hasKey c'.live k ns n = true := by
          intro n hn
          rw [hlive]
          exact hasKey_mono (fun e2 he2 => List.mem_append_left _ he2)
            (hex n hn)
        rcases List.mem_cons.mp hf with rfl | hf'
        · have hk : hasKey c'.live k ns f0.name = true := by
            rw [hlive, ← hname ns f0]
            exact hasKey_append_entry c.live k ns (tf ns f0)
          exact hasKey_mono (fun e2 he2 => scanLoop_mono he2) hk
        · exact ih hex' h f hf'
      | error e2 =>
        intro h
        simp at h

theorem scanLoop_noop {k : Kind} {tf : String → K8sObject → K8sObject}
    {ns : String} {existing : List K8sObject}
    {files : List (String × K8sObject)} {c : Cluster} {tr : List Op}
    (hname : ∀ n f, (tf n f).name = f.name)
    (h : ∀ f ∈ files, existing.any (fun e => e.name == f.2.name) = true) :
    scanLoop k tf ns existing files c tr = ⟨c, tr, none⟩ := by
  induction files with
  | nil => rfl
  | cons fe rest ih =>
    obtain ⟨fn, f0⟩ := fe
    simp only [scanLoop]
    have hh : existing.any (fun e2 => e2.name == (tf ns f0).name) = true := by
      rw [hname]
      exact h (fn, f0) (List.mem_cons_self _ _)
    rw [if_pos hh]
    exact ih (fun f hf => h f (List.mem_cons_of_mem _ hf))

/-! ## Lemmas about the direct-get importer loop -/

theorem dgLoop_mono {k : Kind} {tf : String → K8sObject → K8sObject}
    {ns : String} {files : List (String × K8sObject)} {c : Cluster}
    {tr : List Op} {e : Entry} (he : e ∈ c.live) :
    e ∈ (dgLoop k tf ns files c tr).cluster.live := by
  induction files generalizing c tr with
  | nil => exact he
  | cons fe rest ih =>
    obtain ⟨fn, f0⟩ := fe
    simp only [dgLoop]
    cases hg : getByName c k ns (tf ns f0).name with
    | found o => exact ih he
    | errOther => exact he
    | notFound =>
      cases hc : createObj c k ns (tf ns f0) with
      | ok c' =>
        refine ih ?_
        rw [(createObj_ok_inv hc).2.1]
        exact List.mem_append_left _ he
      | error e2 => exact he

theorem dgLoop_faults {k : Kind} {tf : String → K8sObject → K8sObject}
    {ns : String} {files : List (String × K8sObject)} {c : Cluster}
    {tr : List Op} :
    (dgLoop k tf ns files c tr).cluster.getFaults = c.getFaults := by
  induction files generalizing c tr with
  | nil => rfl
  | cons fe rest ih =>
    obtain ⟨fn, f0⟩ := fe
    simp only [dgLoop]
    cases hg : getByName c k ns (tf ns f0).name with
    | found o => exact ih
    | errOther => rfl
    | notFound =>
      cases hc : createObj c k ns (tf ns f0) with
      | ok c' => exact ih.trans (createObj_ok_inv hc).2.2
      | error e2 => rfl

theorem dgLoop_trace {k : Kind} {tf : String → K8sObject → K8sObject}
    {ns : String} {files : List (String × K8sObject)} {c : Cluster}
    {tr : List Op} {op : Op}
    (hname : ∀ n f, (tf n f).name = f.name)
    (h : op ∈ (dgLoop k tf ns files c tr).trace) :
    op ∈ tr ∨ (∃ f ∈ files, op = .getOp k ns f.2.name) ∨
      ∃ f ∈ files, op = .createOp k ns (tf ns f.2) := by
  induction files generalizing c tr with
  | nil => exact Or.inl h
  | cons fe rest ih =>
    obtain ⟨fn, f0⟩ := fe
    simp only [dgLoop] at h
    have hget : Op.getOp k ns (tf ns f0).name = .getOp k ns f0.name := by
      rw [hname]
    revert h
    cases hg : getByName c k ns (tf ns f0).name with
    | found o =>
      intro h
      rcases ih h with h1 | h1 | h1
      · rcases List.mem_append.mp h1 with h2 | h2
        · exact Or.inl h2
        · refine Or.inr (Or.inl ⟨(fn, f0), List.mem_cons_self _ _, ?_⟩)
          have := List.mem_singleton.mp h2
          rw [this, hget]
      · rcases h1 with ⟨f, hf, heq⟩
        exact Or.inr (Or.inl ⟨f, List.mem_cons_of_mem _ hf, heq⟩)
      · rcases h1 with ⟨f, hf, heq⟩
        exact Or.inr (Or.inr ⟨f, List.mem_cons_of_mem _ hf, heq⟩)
    | errOther =>
      intro h
      rcases List.mem_append.mp h with h2 | h2
      · exact Or.inl h2
      · refine Or.inr (Or.inl ⟨(fn, f0), List.mem_cons_self _ _, ?_⟩)
        have := List.mem_singleton.mp h2
        rw [this, hget]
    | notFound =>
      intro h
      revert h
      cases hc : createObj c k ns (tf ns f0) with
      | ok c' =>
        intro h
        rcases ih h with h1 | h1 | h1
        · rcases List.mem_append.mp h1 with h2 | h2
          · exact Or.inl h2
          · rcases List.mem_cons.mp h2 with h3 | h3
            · refine Or.inr (Or.inl ⟨(fn, f0), List.mem_cons_self _ _, ?_⟩)
              rw [h3, hget]
            · refine Or.inr (Or.inr ⟨(fn, f0), List.mem_cons_self _ _, ?_⟩)
              simpa using h3
        · rcases h1 with ⟨f, hf, heq⟩
          exact Or.inr (Or.inl ⟨f, List.mem_cons_of_mem _ hf, heq⟩)
        · rcases h1 with ⟨f, hf, heq⟩
          exact Or.inr (Or.inr ⟨f, List.mem_cons_of_mem _ hf, heq⟩)
      | error e2 =>
        intro h
        rcases List.mem_append.mp h with h2 | h2
        · exact Or.inl h2
        · rcases List.mem_cons.mp h2 with h3 | h3
          · refine Or.inr (Or.inl ⟨(fn, f0), List.mem_cons_self _ _, ?_⟩)
            rw [h3, hget]
          · refine Or.inr (Or.inr ⟨(fn, f0), List.mem_cons_self _ _, ?_⟩)
            simpa using h3

theorem dgLoop_sat {k : Kind} {tf : String → K8sObject → K8sObject}
    {ns : String} {files : List (String × K8sObject)} {c : Cluster}
    {tr : List Op}
    (hname : ∀ n f, (tf n f).name = f.name)
    (h : (dgLoop k tf ns files c tr).err = none) :
    ∀ f ∈ files, hasKey (dgLoop k tf ns files c tr).cluster.live
        k ns f.2.name = true ∧
      (k, ns, f.2.name) ∉ c.getFaults := by
  induction files generalizing c tr with
  | nil => intro f hf; exact absurd hf (List.not_mem_nil f)
  | cons fe rest ih =>
    obtain ⟨fn, f0⟩ := fe
    intro f hf
    simp only [dgLoop] at h ⊢
    revert h
    cases hg : getByName c k ns (tf ns f0).name with
    | found o =>
      intro h
      obtain ⟨hnf, hk⟩ := getByName_found_inv hg
      rw [hname] at hnf hk
      rcases List.mem_cons.mp hf with rfl | hf'
      · exact ⟨hasKey_mono (fun e2 he2 => dgLoop_mono he2) hk, hnf⟩
      · exact ih h f hf'
    | errOther =>
      intro h
      simp at h
    | notFound =>
      obtain ⟨hnf, hk⟩ := getByName_notFound_inv hg
      rw [hname] at hnf hk
      cases hc : createObj c k ns (tf ns f0) with
      | ok c' =>
        intro h
        obtain ⟨hnk, hlive, hfa⟩ := createObj_ok_inv hc
        rcases List.mem_cons.mp hf with rfl | hf'
        · have hkc : hasKey c'.live k ns f0.name = true := by
            rw [hlive, ← hname ns f0]
            exact hasKey_append_entry c.live k ns (tf ns f0)
          exact ⟨hasKey_mono (fun e2 he2 => dgLoop_mono he2) hkc, hnf⟩
        · have := ih h f hf'
          rw [hfa] at this
          exact this
      | error e2 =>
        intro h
        simp at h

theorem dgLoop_noop {k : Kind} {tf : String → K8sObject → K8sObject}
    {ns : String} {files : List (String × K8sObject)} {c : Cluster}
    {tr : List Op}
    (hname : ∀ n f, (tf n f).name = f.name)
    (h : ∀ f ∈ files, hasKey c.live k ns f.2.name = true ∧
      (k, ns, f.2.name) ∉ c.getFaults) :
    (dgLoop k tf ns files c tr).cluster = c ∧
      (dgLoop k tf ns files c tr).err = none ∧
      ∀ op ∈ (dgLoop k tf ns files c tr).trace,
        op ∈ tr ∨ ∃ f ∈ files, op = .getOp k ns f.2.name := by
  induction files generalizing tr with
  | nil => exact ⟨rfl, rfl, fun op hop => Or.inl hop⟩
  | cons fe rest ih =>
    obtain ⟨fn, f0⟩ := fe
    obtain ⟨hk, hnf⟩ := h (fn, f0) (List.mem_cons_self _ _)
    have hfound : ∃ o, getByName c k ns (tf ns f0).name = .found o := by
      rw [hname]
      exact getByName_found_of hnf hk
    obtain ⟨o, hg⟩ := hfound
    simp only [dgLoop]
    rw [hg]
    obtain ⟨ih1, ih2, ih3⟩ :=
      @ih (tr ++ [.getOp k ns (tf ns f0).name])
        (fun f hf => h f (List.mem_cons_of_mem _ hf))
    refine ⟨ih1, ih2, ?_⟩
    intro op hop
    rcases ih3 op hop with h1 | ⟨f, hf, heq⟩
    · rcases List.mem_append.mp h1 with h2 | h2
      · exact Or.inl h2
      · refine Or.inr ⟨(fn, f0), List.mem_cons_self _ _, ?_⟩
        have := List.mem_singleton.mp h2
        rw [this, hname]
    · exact Or.inr ⟨f, List.mem_cons_of_mem _ hf, heq⟩

theorem dgLoop_err_class {k : Kind} {tf : String → K8sObject → K8sObject}
    {ns : String} {files : List (String × K8sObject)} {c : Cluster}
    {tr : List Op} (hname : ∀ n f, (tf n f).name = f.name) :
    (dgLoop k tf ns files c tr).err = none ∨
      (dgLoop k tf ns files c tr).err = some .getError := by
  induction files generalizing c tr with
  | nil => exact Or.inl rfl
  | cons fe rest ih =>
    obtain ⟨fn, f0⟩ := fe
    simp only [dgLoop]
    cases hg : getByName c k ns (tf ns f0).name with
    | found o => exact ih
    | errOther => exact Or.inr rfl
    | notFound =>
      cases hc : createObj c k ns (tf ns f0) with
      | ok c' => exact ih
      | error e2 =>
        obtain ⟨hnf, hk⟩ := getByName_notFound_inv hg
        have := createObj_error_inv hc
        rw [hname] at hk
        rw [hname] at this
        rw [this] at hk
        cases hk

theorem dgLoop_gets {k : Kind} {tf : String → K8sObject → K8sObject}
    {ns : String} {files : List (String × K8sObject)} {c : Cluster}
    {tr : List Op} (h : (dgLoop k tf ns files c tr).err = none) :
    countGets (dgLoop k tf ns files c tr).trace =
      countGets tr + files.length := by
  induction files generalizing c tr with
  | nil => rfl
  | cons fe rest ih =>
    obtain ⟨fn, f0⟩ := fe
    simp only [dgLoop] at h ⊢
    revert h
    cases hg : getByName c k ns (tf ns f0).name with
    | found o =>
      intro h
      simp only []
      rw [ih h, countGets_append]
      simp [countGets, isGet]
      omega
    | errOther =>
      intro h
      simp at h
    | notFound =>
      cases hc : createObj c k ns (tf ns f0) with
      | ok c' =>
        intro h
        simp only []
        rw [ih h, countGets_append]
        simp [countGets, isGet]
        omega
      | error e2 =>
        intro h
        simp at h

theorem dgLoop_success {k : Kind} {tf : String → K8sObject → K8sObject}
    {ns : String} {files : List (String × K8sObject)} {c : Cluster}
    {tr : List Op}
    (hname : ∀ n f, (tf n f).name = f.name)
    (h : ∀ f ∈ files, (k, ns, f.2.name) ∉ c.getFaults) :
    (dgLoop k tf ns files c tr).err = none := by
  induction files generalizing c tr with
  | nil => rfl
  | cons fe rest ih =>
    obtain ⟨fn, f0⟩ := fe
    simp only [dgLoop]
    have hnf : (k, ns, (tf ns f0).name) ∉ c.getFaults := by
      rw [hname]
      exact h (fn, f0) (List.mem_cons_self _ _)
    cases hg : getByName c k ns (tf ns f0).name with
    | found o => exact ih (fun f hf => h f (List.mem_cons_of_mem _ hf))
    | errOther => exact absurd (getByName_errOther_inv hg) hnf
    | notFound =>
      cases hc : createObj c k ns (tf ns f0) with
      | ok c' =>
        refine ih ?_
        intro f hf
        rw [(createObj_ok_inv hc).2.2]
        exact h f (List.mem_cons_of_mem _ hf)
      | error e2 =>
        obtain ⟨hnf2, hk⟩ := getByName_notFound_inv hg
        have := createObj_error_inv hc
        rw [this] at hk
        cases hk

theorem dgLoop_abort_on_fault {k : Kind}
    {tf : String → K8sObject → K8sObject} {ns : String}
    {files : List (String × K8sObject)} {c : Cluster} {tr : List Op}
    (hname : ∀ n f, (tf n f).name = f.name)
    (h : ∃ f ∈ files, (k, ns, f.2.name) ∈ c.getFaults) :
    (dgLoop k tf ns files c tr).err = some .getError := by
  rcases @dgLoop_err_class k tf ns files c tr hname with hn | hs
  · exfalso
    rcases h with ⟨f, hf, hfault⟩
    have := (dgLoop_sat hname hn f hf).2
    exact this hfault
  · exact hs

/-! ## Per-kind conflict data

`fsetFor` is the file set a kind's importer processes, `kindFor` the kind it
creates, `isDG` whether it uses the direct-get conflict strategy, and
`readyFor` the condition "every object this kind's importer would restore is
already live (and, for direct-get kinds, its get is not faulted)". -/

def kindFor (kname : String) : Kind :=
  if kname = "pvc" then .pvc
  else if kname = "pod" then .pod
  else if kname = "replicaset" then .replicaset
  else if kname = "deployment" then .deployment
  else if kname = "configmap" then .configmap
  else if kname = "service" then .service
  else if kname = "statefulset" then .statefulset
  else if kname = "serviceaccount" then .serviceaccount
  else .secret

def isDG (kname : String) : Bool :=
  kname == "service" || kname == "serviceaccount" || kname == "secret"

def fsetFor (kname : String) (d : Dir) : Dir :=
  if kname = "serviceaccount" then d
  else if kname = "service" then dirFilter d "service-"
  else if kname = "secret" then dirFilter d "secret-"
  else glob d (kname ++ "-")

def readyFor (kname : String) (d : Dir) (ns : String) (c : Cluster) : Prop :=
  ∀ f ∈ fsetFor kname d,
    hasKey c.live (kindFor kname) ns f.2.name = true ∧
      (isDG kname = true → (kindFor kname, ns, f.2.name) ∉ c.getFaults)

theorem readyFor_mono {kname : String} {d : Dir} {ns : String}
    {c c' : Cluster} (hsub : ∀ e ∈ c.live, e ∈ c'.live)
    (hfa : c'.getFaults = c.getFaults) (h : readyFor kname d ns c) :
    readyFor kname d ns c' := by
  intro f hf
  obtain ⟨h1, h2⟩ := h f hf
  refine ⟨hasKey_mono hsub h1, fun hdg => ?_⟩
  rw [hfa]
  exact h2 hdg

/-- The properties of one `restoreFuncs` entry the orchestration proofs rely
on: the importer only grows the live set, preserves the fault set, on success
leaves every object of its file set live, is a no-op when they already are,
and the only mutating calls in its trace are creates. -/
def GoodEntry (p : String × Importer) : Prop :=
  (∀ fn ns d c e, e ∈ c.live → e ∈ (p.2 fn ns d c).cluster.live) ∧
  (∀ fn ns d c, (p.2 fn ns d c).cluster.getFaults = c.getFaults) ∧
  (∀ fn ns d c, (p.2 fn ns d c).err = none →
    readyFor p.1 d ns (p.2 fn ns d c).cluster) ∧
  (∀ fn ns d c, readyFor p.1 d ns c →
    (p.2 fn ns d c).cluster = c ∧ (p.2 fn ns d c).err = none ∧
      createdObjs (p.2 fn ns d c).trace = []) ∧
  (∀ fn ns d c op, op ∈ (p.2 fn ns d c).trace → isMutOp op = true →
    ∃ k2 n2 o2, op = .createOp k2 n2 o2)

theorem tfMeta_name (n : String) (f : K8sObject) :
    (tfMeta n f).name = f.name := rfl

theorem tfCM_name (n : String) (f : K8sObject) :
    (tfCM n f).name = f.name := rfl

theorem tfSvc_name (n : String) (f : K8sObject) :
    (tfSvc n f).name = f.name := rfl

theorem createdObjs_append (a b : List Op) :
    createdObjs (a ++ b) = createdObjs a ++ createdObjs b := by
  unfold createdObjs
  rw [List.filterMap_append]

theorem createdObjs_eq_nil_iff {tr : List Op} :
    createdObjs tr = [] ↔ ∀ k n o, Op.createOp k n o ∉ tr := by
  constructor
  · intro h k n o hmem
    have : (k, n, o) ∈ createdObjs tr := by
      unfold createdObjs
      exact List.mem_filterMap.mpr ⟨_, hmem, rfl⟩
    rw [h] at this
    exact absurd this (List.not_mem_nil _)
  · intro h
    unfold createdObjs
    rw [List.filterMap_eq_nil_iff]
    intro op hop
    cases op with
    | createOp k n o => exact absurd hop (h k n o)
    | listOp k n => rfl
    | getOp k n m => rfl
    | updateOp k n o => rfl
    | deleteOp k n m => rfl

theorem goodEntry_scan (kname : String) (k : Kind) (pre : String)
    (tf : String → K8sObject → K8sObject) (rf : Importer)
    (hname : ∀ n f, (tf n f).name = f.name)
    (hrf : rf = fun fn ns d c =>
      scanLoop k tf ns (listObjs c k ns) (glob d pre) c [.listOp k ns])
    (hfset : ∀ d, fsetFor kname d = glob d pre)
    (hk : kindFor kname = k) (hdg : isDG kname = false) :
    GoodEntry (kname, rf) := by
  subst hrf
  refine ⟨?_, ?_, ?_, ?_, ?_⟩
  · intro fn ns d c e he
    exact scanLoop_mono he
  · intro fn ns d c
    exact scanLoop_faults
  · intro fn ns d c h
    intro f hf
    rw [hfset] at hf
    constructor
    · rw [hk]
      refine scanLoop_sat hname ?_ h f hf
      intro n hn
      rwa [listObjs_any_name] at hn
    · intro hdg2
      rw [hdg] at hdg2
      cases hdg2
  · intro fn ns d c hready
    have hcond : ∀ f ∈ glob d pre,
        (listObjs c k ns).any (fun e => e.name == f.2.name) = true := by
      intro f hf
      rw [listObjs_any_name]
      have := (hready f (by rw [hfset]; exact hf)).1
      rwa [hk] at this
    simp only []
    rw [scanLoop_noop hname hcond]
    exact ⟨rfl, rfl, rfl⟩
  · intro fn ns d c op hop hmut
    rcases scanLoop_trace hop with h1 | ⟨f, hf, heq⟩
    · rcases List.mem_singleton.mp h1 with rfl
      cases hmut
    · exact ⟨k, ns, tf ns f.2, heq⟩

theorem goodEntry_dg (kname : String) (k : Kind)
    (tf : String → K8sObject → K8sObject) (fset : Dir → Dir) (rf : Importer)
    (hname : ∀ n f, (tf n f).name = f.name)
    (hrf : rf = fun fn ns d c => dgLoop k tf ns (fset d) c [])
    (hfset : ∀ d, fsetFor kname d = fset d)
    (hk : kindFor kname = k) (hdg : isDG kname = true) :
    GoodEntry (kname, rf) := by
  subst hrf
  refine ⟨?_, ?_, ?_, ?_, ?_⟩
  · intro fn ns d c e he
    exact dgLoop_mono he
  · intro fn ns d c
    exact dgLoop_faults
  · intro fn ns d c h
    intro f hf
    rw [hfset] at hf
    have hsat := dgLoop_sat hname h f hf
    rw [hk]
    refine ⟨hsat.1, fun _ => ?_⟩
    simp only []
    rw [dgLoop_faults]
    exact hsat.2
  · intro fn ns d c hready
    have hcond : ∀ f ∈ fset d, hasKey c.live k ns f.2.name = true ∧
        (k, ns, f.2.name) ∉ c.getFaults := by
      intro f hf
      have := hready f (by rw [hfset]; exact hf)
      rw [hk] at this
      exact ⟨this.1, this.2 hdg⟩
    obtain ⟨h1, h2, h3⟩ := dgLoop_noop hname hcond
    refine ⟨h1, h2, ?_⟩
    rw [createdObjs_eq_nil_iff]
    intro k2 n2 o2 hmem
    rcases h3 _ hmem with hin | ⟨f, hf, heq⟩
    · exact absurd hin (List.not_mem_nil _)
    · cases heq
  · intro fn ns d c op hop hmut
    rcases dgLoop_trace hname hop with h1 | ⟨f, hf, heq⟩ | ⟨f, hf, heq⟩
    · exact absurd h1 (List.not_mem_nil _)
    · rw [heq] at hmut
      cases hmut
    · exact ⟨k, ns, tf ns f.2, heq⟩

theorem kindGlobs_good : ∀ p ∈ kindGlobs, GoodEntry p := by
  intro p hp
  simp only [kindGlobs, List.mem_cons, List.not_mem_nil, or_false] at hp
  rcases hp with rfl | rfl | rfl | rfl | rfl | rfl | rfl | rfl | rfl
  · exact goodEntry_scan "pvc" .pvc "pvc-" tfMeta _ tfMeta_name rfl
      (fun d => rfl) rfl rfl
  · exact goodEntry_scan "pod" .pod "pod-" tfMeta _ tfMeta_name rfl
      (fun d => rfl) rfl rfl
  · exact goodEntry_scan "replicaset" .replicaset "replicaset-" tfMeta _
      tfMeta_name rfl (fun d => rfl) rfl rfl
  · exact goodEntry_scan "deployment" .deployment "deployment-" tfMeta _
      tfMeta_name rfl (fun d => rfl) rfl rfl
  · exact goodEntry_scan "configmap" .configmap "configmap-" tfCM _
      tfCM_name rfl (fun d => rfl) rfl rfl
  · exact goodEntry_dg "service" .service tfSvc
      (fun d => dirFilter d "service-") _ tfSvc_name rfl (fun d => rfl)
      rfl rfl
  · exact goodEntry_scan "statefulset" .statefulset "statefulset-" tfMeta _
      tfMeta_name rfl (fun d => rfl) rfl rfl
  · exact goodEntry_dg "serviceaccount" .serviceaccount tfMeta
      (fun d => d) _ tfMeta_name rfl (fun d => rfl) rfl rfl
  · exact goodEntry_dg "secret" .secret tfMeta
      (fun d => dirFilter d "secret-") _ tfMeta_name rfl (fun d => rfl)
      rfl rfl

/-! ## Orchestrator lemmas -/

theorem runFiles_mono {rf : Importer}
    (hmono : ∀ fn ns d c e, e ∈ c.live → e ∈ (rf fn ns d c).cluster.live)
    {files : List String} {ns : String} {d : Dir} {c : Cluster}
    {tr : List Op} {e : Entry} (he : e ∈ c.live) :
    e ∈ (runFiles rf files ns d c tr).cluster.live := by
  induction files generalizing c tr with
  | nil => exact he
  | cons fn rest ih =>
    simp only [runFiles]
    rcases hr : rf fn ns d c with ⟨c2, tr2, err⟩
    have h2 : e ∈ c2.live := by
      have := hmono fn ns d c e he
      rw [hr] at this
      exact this
    cases err with
    | some e2 => exact h2
    | none => exact ih h2

theorem runFiles_faults {rf : Importer}
    (hfa : ∀ fn ns d c, (rf fn ns d c).cluster.getFaults = c.getFaults)
    {files : List String} {ns : String} {d : Dir} {c : Cluster}
    {tr : List Op} :
    (runFiles rf files ns d c tr).cluster.getFaults = c.getFaults := by
  induction files generalizing c tr with
  | nil => rfl
  | cons fn rest ih =>
    simp only [runFiles]
    rcases hr : rf fn ns d c with ⟨c2, tr2, err⟩
    have h2 : c2.getFaults = c.getFaults := by
      have := hfa fn ns d c
      rw [hr] at this
      exact this
    cases err with
    | some e2 => exact h2
    | none => exact ih.trans h2

theorem runFiles_mut {rf : Importer}
    (hmut : ∀ fn ns d c op, op ∈ (rf fn ns d c).trace →
      isMutOp op = true → ∃ k2 n2 o2, op = Op.createOp k2 n2 o2)
    {files : List String} {ns : String} {d : Dir} {c : Cluster}
    {tr : List Op} :
    ∀ op ∈ (runFiles rf files ns d c tr).trace,
      op ∈ tr ∨ (isMutOp op = true → ∃ k2 n2 o2, op = Op.createOp k2 n2 o2) := by
  induction files generalizing c tr with
  | nil => exact fun op hop => Or.inl hop
  | cons fn rest ih =>
    intro op hop
    simp only [runFiles] at hop
    revert hop
    rcases hr : rf fn ns d c with ⟨c2, tr2, err⟩
    have h2 : ∀ op2, op2 ∈ tr2 →
        isMutOp op2 = true → ∃ k2 n2 o2, op2 = Op.createOp k2 n2 o2 := by
      intro op2 hop2
      refine hmut fn ns d c op2 ?_
      rw [hr]
      exact hop2
    cases err with
    | some e2 =>
      intro hop
      rcases List.mem_append.mp hop with h3 | h3
      · exact Or.inl h3
      · exact Or.inr (h2 op h3)
    | none =>
      intro hop
      rcases ih op hop with h3 | h3
      · rcases List.mem_append.mp h3 with h4 | h4
        · exact Or.inl h4
        · exact Or.inr (h2 op h4)
      · exact Or.inr h3

theorem runFiles_sat {kname : String} {rf : Importer}
    (hge : GoodEntry (kname, rf)) {files : List String} {ns : String}
    {d : Dir} {c : Cluster} {tr : List Op} (hne : files ≠ [])
    (h : (runFiles rf files ns d c tr).err = none) :
    readyFor kname d ns (runFiles rf files ns d c tr).cluster := by
  induction files generalizing c tr with
  | nil => exact absurd rfl hne
  | cons fn rest ih =>
    simp only [runFiles] at h ⊢
    revert h
    rcases hr : rf fn ns d c with ⟨c2, tr2, err⟩
    cases err with
    | some e2 =>
      intro h
      simp at h
    | none =>
      intro h
      cases rest with
      | nil =>
        have hsat := hge.2.2.1 fn ns d c
          (by show (rf fn ns d c).err = none; rw [hr])
        simp only [] at hsat
        rw [hr] at hsat
        exact hsat
      | cons fn2 rest2 =>
        exact ih (List.cons_ne_nil _ _) h

theorem runFiles_noop {kname : String} {rf : Importer}
    (hge : GoodEntry (kname, rf)) {files : List String} {ns : String}
    {d : Dir} {c : Cluster} {tr : List Op}
    (hready : readyFor kname d ns c) :
    (runFiles rf files ns d c tr).cluster = c ∧
      (runFiles rf files ns d c tr).err = none ∧
      createdObjs (runFiles rf files ns d c tr).trace = createdObjs tr := by
  induction files generalizing tr with
  | nil => exact ⟨rfl, rfl, rfl⟩
  | cons fn rest ih =>
    obtain ⟨h1, h2, h3⟩ := hge.2.2.2.1 fn ns d c hready
    simp only [runFiles]
    rcases hr : rf fn ns d c with ⟨c2, tr2, err⟩
    simp only [] at h1 h2 h3
    rw [hr] at h1 h2 h3
    simp only [] at h1 h2 h3
    subst h2
    subst h1
    obtain ⟨ih1, ih2, ih3⟩ := @ih (tr ++ tr2)
    refine ⟨ih1, ih2, ?_⟩
    rw [ih3, createdObjs_append, h3, List.append_nil]

theorem runKinds_mono {ks : List (String × Importer)}
    (hgood : ∀ p ∈ ks, GoodEntry p) {d : Dir} {ns : String} {c : Cluster}
    {tr : List Op} {e : Entry} (he : e ∈ c.live) :
    e ∈ (runKinds ks d ns c tr).cluster.live := by
  induction ks generalizing c tr with
  | nil => exact he
  | cons p rest ih =>
    obtain ⟨kname, rf⟩ := p
    simp only [runKinds]
    rcases hr : runFiles rf ((glob d (kname ++ "-")).map (·.1)) ns d c tr
      with ⟨c2, tr2, err⟩
    rw [hr]
    have h2 : e ∈ c2.live := by
      have := @runFiles_mono rf (hgood _ (List.mem_cons_self _ _)).1
        ((glob d (kname ++ "-")).map (·.1)) ns d c tr e he
      rw [hr] at this
      exact this
    cases err with
    | some e2 => exact h2
    | none => exact ih (fun q hq => hgood q (List.mem_cons_of_mem _ hq)) h2

theorem runKinds_faults {ks : List (String × Importer)}
    (hgood : ∀ p ∈ ks, GoodEntry p) {d : Dir} {ns : String} {c : Cluster}
    {tr : List Op} :
    (runKinds ks d ns c tr).cluster.getFaults = c.getFaults := by
  induction ks generalizing c tr with
  | nil => rfl
  | cons p rest ih =>
    obtain ⟨kname, rf⟩ := p
    simp only [runKinds]
    rcases hr : runFiles rf ((glob d (kname ++ "-")).map (·.1)) ns d c tr
      with ⟨c2, tr2, err⟩
    rw [hr]
    have h2 : c2.getFaults = c.getFaults := by
      have := @runFiles_faults rf (hgood _ (List.mem_cons_self _ _)).2.1
        ((glob d (kname ++ "-")).map (·.1)) ns d c tr
      rw [hr] at this
      exact this
    cases err with
    | some e2 => exact h2
    | none =>
      exact (ih (fun q hq => hgood q (List.mem_cons_of_mem _ hq))).trans h2

theorem runKinds_mut {ks : List (String × Importer)}
    (hgood : ∀ p ∈ ks, GoodEntry p) {d : Dir} {ns : String} {c : Cluster}
    {tr : List Op} :
    ∀ op ∈ (runKinds ks d ns c tr).trace,
      op ∈ tr ∨ (isMutOp op = true → ∃ k2 n2 o2, op = Op.createOp k2 n2 o2) := by
  induction ks generalizing c tr with
  | nil => exact fun op hop => Or.inl hop
  | cons q rest ih =>
    obtain ⟨kname, rf⟩ := q
    intro op hop
    simp only [runKinds] at hop
    obtain ⟨c2, tr2, err, hr⟩ : ∃ c2 tr2 err,
        runFiles rf ((glob d (kname ++ "-")).map (·.1)) ns d c tr =
          ⟨c2, tr2, err⟩ := ⟨_, _, _, rfl⟩
    rw [hr] at hop
    have hstep : ∀ op2 ∈ tr2, op2 ∈ tr ∨
        (isMutOp op2 = true → ∃ k2 n2 o2, op2 = Op.createOp k2 n2 o2) := by
      intro op2 hop2
      refine @runFiles_mut rf ?_ ((glob d (kname ++ "-")).map (·.1)) ns d c
        tr op2 ?_
      · intro fn2 ns2 d2 c3 op3 h3 hm3
        exact (hgood _ (List.mem_cons_self _ _)).2.2.2.2 fn2 ns2 d2 c3 op3
          h3 hm3
      · rw [hr]
        exact hop2
    cases err with
    | some e2 => exact hstep op hop
    | none =>
      rcases ih (fun q2 hq2 => hgood q2 (List.mem_cons_of_mem _ hq2)) op hop
        with h3 | h3
      · exact hstep op h3
      · exact Or.inr h3

theorem runKinds_sat {ks : List (String × Importer)}
    (hgood : ∀ p ∈ ks, GoodEntry p) {d : Dir} {ns : String} {c : Cluster}
    {tr : List Op} (h : (runKinds ks d ns c tr).err = none) :
    ∀ p ∈ ks, (glob d (p.1 ++ "-")).map (·.1) = [] ∨
      readyFor p.1 d ns (runKinds ks d ns c tr).cluster := by
  induction ks generalizing c tr with
  | nil => intro p hp; exact absurd hp (List.not_mem_nil p)
  | cons q rest ih =>
    obtain ⟨kname, rf⟩ := q
    simp only [runKinds] at h ⊢
    obtain ⟨c2, tr2, err, hr⟩ : ∃ c2 tr2 err,
        runFiles rf ((glob d (kname ++ "-")).map (·.1)) ns d c tr =
          ⟨c2, tr2, err⟩ := ⟨_, _, _, rfl⟩
    rw [hr] at h ⊢
    cases err with
    | some e2 => simp at h
    | none =>
      intro p hp
      rcases List.mem_cons.mp hp with rfl | hp'
      · cases hfiles : (glob d (kname ++ "-")).map (·.1) with
        | nil => exact Or.inl rfl
        | cons a as =>
          right
          have hready2 : readyFor kname d ns c2 := by
            have hs := @runFiles_sat kname rf
              (hgood _ (List.mem_cons_self _ _))
              ((glob d (kname ++ "-")).map (·.1)) ns d c tr
              (by rw [hfiles]; exact List.cons_ne_nil a as)
              (by rw [hr])
            rw [hr] at hs
            exact hs
          exact readyFor_mono
            (fun e he =>
              runKinds_mono (fun q2 hq2 => hgood q2 (List.mem_cons_of_mem _ hq2)) he)
            (runKinds_faults (fun q2 hq2 => hgood q2 (List.mem_cons_of_mem _ hq2)))
            hready2
      · exact ih (fun q2 hq2 => hgood q2 (List.mem_cons_of_mem _ hq2)) h p hp'

theorem runKinds_noop {ks : List (String × Importer)}
    (hgood : ∀ p ∈ ks, GoodEntry p) {d : Dir} {ns : String} {c : Cluster}
    {tr : List Op}
    (hready : ∀ p ∈ ks, (glob d (p.1 ++ "-")).map (·.1) = [] ∨
      readyFor p.1 d ns c) :
    (runKinds ks d ns c tr).cluster = c ∧
      (runKinds ks d ns c tr).err = none ∧
      createdObjs (runKinds ks d ns c tr).trace = createdObjs tr := by
  induction ks generalizing tr with
  | nil => exact ⟨rfl, rfl, rfl⟩
  | cons q rest ih =>
    obtain ⟨kname, rf⟩ := q
    simp only [runKinds]
    rcases hready (kname, rf) (List.mem_cons_self _ _) with hnil | hrdy
    · rw [hnil]
      exact ih (fun q2 hq2 => hgood q2 (List.mem_cons_of_mem _ hq2))
        (fun q2 hq2 => hready q2 (List.mem_cons_of_mem _ hq2))
    · obtain ⟨n1, n2, n3⟩ := @runFiles_noop kname rf
        (hgood _ (List.mem_cons_self _ _))
        ((glob d (kname ++ "-")).map (·.1)) ns d c tr hrdy
      obtain ⟨c2, tr2, err, hr⟩ : ∃ c2 tr2 err,
          runFiles rf ((glob d (kname ++ "-")).map (·.1)) ns d c tr =
            ⟨c2, tr2, err⟩ := ⟨_, _, _, rfl⟩
      rw [hr] at n1 n2 n3 ⊢
      simp only [] at n1 n2 n3
      subst n2
      rw [n1]
      have ihh : (runKinds rest d ns c tr2).cluster = c ∧
          (runKinds rest d ns c tr2).err = none ∧
          createdObjs (runKinds rest d ns c tr2).trace = createdObjs tr2 :=
        ih (fun q2 hq2 => hgood q2 (List.mem_cons_of_mem _ hq2))
          (fun q2 hq2 => hready q2 (List.mem_cons_of_mem _ hq2))
      exact ⟨ihh.1, ihh.2.1, ihh.2.2.trans n3⟩

/-! ## Characterizing the objects passed to create -/

theorem mem_createdObjs {tr : List Op} {k : Kind} {n : String}
    {o : K8sObject} :
    (k, n, o) ∈ createdObjs tr ↔ Op.createOp k n o ∈ tr := by
  unfold createdObjs
  rw [List.mem_filterMap]
  constructor
  · rintro ⟨op, hop, heq⟩
    cases op <;> simp_all
  · intro h
    exact ⟨_, h, rfl⟩

theorem scanLoop_createdObjs {k : Kind} {tf : String → K8sObject → K8sObject}
    {ns : String} {existing : List K8sObject}
    {files : List (String × K8sObject)} {c : Cluster} {tr : List Op} :
    ∀ x ∈ createdObjs (scanLoop k tf ns existing files c tr).trace,
      createdObjs tr = [] → ∃ f ∈ files, x = (k, ns, tf ns f.2) := by
  rintro ⟨k2, n2, o2⟩ hx h0
  have hop := mem_createdObjs.mp hx
  rcases scanLoop_trace hop with h1 | ⟨f, hf, heq⟩
  · exfalso
    have h2 : (k2, n2, o2) ∈ createdObjs tr := mem_createdObjs.mpr h1
    rw [h0] at h2
    exact absurd h2 (List.not_mem_nil _)
  · exact ⟨f, hf, by simpa using heq⟩

theorem dgLoop_createdObjs {k : Kind} {tf : String → K8sObject → K8sObject}
    {ns : String} {files : List (String × K8sObject)} {c : Cluster}
    {tr : List Op} (hname : ∀ n f, (tf n f).name = f.name) :
    ∀ x ∈ createdObjs (dgLoop k tf ns files c tr).trace,
      createdObjs tr = [] → ∃ f ∈ files, x = (k, ns, tf ns f.2) := by
  rintro ⟨k2, n2, o2⟩ hx h0
  have hop := mem_createdObjs.mp hx
  rcases dgLoop_trace hname hop with h1 | ⟨f, hf, heq⟩ | ⟨f, hf, heq⟩
  · exfalso
    have h2 : (k2, n2, o2) ∈ createdObjs tr := mem_createdObjs.mpr h1
    rw [h0] at h2
    exact absurd h2 (List.not_mem_nil _)
  · cases heq
  · exact ⟨f, hf, by simpa using heq⟩

theorem glob_subset {d : Dir} {pre : String} : ∀ f ∈ glob d pre, f ∈ d :=
  fun f hf => List.mem_of_mem_filter hf

theorem dirFilter_subset {d : Dir} {pre : String} :
    ∀ f ∈ dirFilter d pre, f ∈ d :=
  fun f hf => List.mem_of_mem_filter hf

/-- The trace of a full backup run: one List call per kind, nothing else. -/
theorem RunBackup_trace (c : Cluster) (ns : String) (d : Dir) :
    (RunBackup c ns d).2 =
      [.listOp .pvc ns, .listOp .pod ns, .listOp .replicaset ns,
       .listOp .deployment ns, .listOp .configmap ns,
       .listOp .statefulset ns, .listOp .service ns,
       .listOp .serviceaccount ns, .listOp .secret ns] := rfl

/-! ## Concrete fixtures used by counterexamples and witnesses -/

def sampleCM : K8sObject := ⟨"app-config", "orig", "5", "", none, "cm-data"⟩

def samplePod : K8sObject := ⟨"p1", "orig", "7", "", none, "pod-spec"⟩

def sampleSvc : K8sObject :=
  ⟨"svc1", "orig", "9", "10.96.0.7", some ["10.96.0.7"], "svc-spec"⟩

def sampleDir : Dir :=
  [("pod-p1.json", samplePod), ("configmap-app-config.json", sampleCM),
   ("service-svc1.json", sampleSvc)]

def c0 : Cluster := ⟨[], []⟩

/-! ## Claim C1 -/

/-- Claim C1 fails as stated: the config-map importer passes the object to
create with the namespace recorded in the file ("orig"), not the target
namespace ("demo").  Concretely, restoring a config-map file whose recorded
namespace is "orig" into namespace "demo" issues a create whose object still
carries namespace "orig". -/
theorem configmap_restore_keeps_file_namespace :
    ∃ x ∈ createdObjs (restoreConfigMap "f" "demo" sampleDir c0).trace,
      x.2.2.ns ≠ "demo" :=
  ⟨(.configmap, "demo", sampleCM), by decide, by decide⟩

/-- Claim C1 (amended): for eight of the nine kinds — every kind except
config-map — each object passed to a create call during import has its
namespace field set to the target namespace, regardless of the namespace
recorded in the file; the config-map importer instead passes the object
through exactly as deserialized from the file (so its namespace is whatever
the file recorded). -/
theorem restore_namespace_rewrite_eight_kinds
    (file ns : String) (d : Dir) (c : Cluster) :
    (∀ x ∈ createdObjs (restorePVC file ns d c).trace, x.2.2.ns = ns) ∧
    (∀ x ∈ createdObjs (restorePod file ns d c).trace, x.2.2.ns = ns) ∧
    (∀ x ∈ createdObjs (restoreReplicaSet file ns d c).trace,
      x.2.2.ns = ns) ∧
    (∀ x ∈ createdObjs (restoreDeployment file ns d c).trace,
      x.2.2.ns = ns) ∧
    (∀ x ∈ createdObjs (restoreStatefulSet file ns d c).trace,
      x.2.2.ns = ns) ∧
    (∀ x ∈ createdObjs (restoreServices file ns d c).trace,
      x.2.2.ns = ns) ∧
    (∀ x ∈ createdObjs (restoreServiceAccounts file ns d c).trace,
      x.2.2.ns = ns) ∧
    (∀ x ∈ createdObjs (restoreSecrets file ns d c).trace,
      x.2.2.ns = ns) ∧
    (∀ x ∈ createdObjs (restoreConfigMap file ns d c).trace,
      ∃ f ∈ d, x.2.2 = f.2) := by
  refine ⟨?_, ?_, ?_, ?_, ?_, ?_, ?_, ?_, ?_⟩
  · intro x hx
    rcases scanLoop_createdObjs x hx rfl with ⟨f, hf, rfl⟩
    rfl
  · intro x hx
    rcases scanLoop_createdObjs x hx rfl with ⟨f, hf, rfl⟩
    rfl
  · intro x hx
    rcases scanLoop_createdObjs x hx rfl with ⟨f, hf, rfl⟩
    rfl
  · intro x hx
    rcases scanLoop_createdObjs x hx rfl with ⟨f, hf, rfl⟩
    rfl
  · intro x hx
    rcases scanLoop_createdObjs x hx rfl with ⟨f, hf, rfl⟩
    rfl
  · intro x hx
    rcases dgLoop_createdObjs tfSvc_name x hx rfl with ⟨f, hf, rfl⟩
    rfl
  · intro x hx
    rcases dgLoop_createdObjs tfMeta_name x hx rfl with ⟨f, hf, rfl⟩
    rfl
  · intro x hx
    rcases dgLoop_createdObjs tfMeta_name x hx rfl with ⟨f, hf, rfl⟩
    rfl
  · intro x hx
    rcases scanLoop_createdObjs x hx rfl with ⟨f, hf, rfl⟩
    exact ⟨f, glob_subset f hf, rfl⟩

/-- Witness for the amended claim C1: restoring the sample backup into
namespace "demo" actually creates a pod, and the theorem yields that its
namespace field is "demo". -/
theorem restore_namespace_rewrite_eight_kinds_witness :
    (Kind.pod, "demo",
      ({ samplePod with ns := "demo", resourceVersion := "" } : K8sObject)) ∈
        createdObjs (restorePod "f" "demo" sampleDir c0).trace ∧
    ({ samplePod with ns := "demo", resourceVersion := "" } : K8sObject).ns =
      "demo" := by
  have hm : (Kind.pod, "demo",
      ({ samplePod with ns := "demo", resourceVersion := "" } : K8sObject)) ∈
        createdObjs (restorePod "f" "demo" sampleDir c0).trace := by decide
  exact ⟨hm,
    (restore_namespace_rewrite_eight_kinds "f" "demo" sampleDir c0).2.1 _ hm⟩

/-! ## Claim C2 -/

/-- Claim C2 fails as stated: the config-map importer passes the object to
create with the resourceVersion recorded in the file ("5" here), not the
empty string. -/
theorem configmap_restore_keeps_file_revision :
    ∃ x ∈ createdObjs (restoreConfigMap "f" "demo" sampleDir c0).trace,
      x.2.2.resourceVersion ≠ "" :=
  ⟨(.configmap, "demo", sampleCM), by decide, by decide⟩

/-- Claim C2 (amended): for every kind except config-map, each object passed
to a create call during import has an empty resourceVersion, regardless of
the value recorded in the file; the config-map importer passes the file's
recorded resourceVersion through unchanged (files written by this repo's own
config-map exporter record an empty one, but the importer does not enforce
it). -/
theorem restore_revision_clearing_eight_kinds
    (file ns : String) (d : Dir) (c : Cluster) :
    (∀ x ∈ createdObjs (restorePVC file ns d c).trace,
      x.2.2.resourceVersion = "") ∧
    (∀ x ∈ createdObjs (restorePod file ns d c).trace,
      x.2.2.resourceVersion = "") ∧
    (∀ x ∈ createdObjs (restoreReplicaSet file ns d c).trace,
      x.2.2.resourceVersion = "") ∧
    (∀ x ∈ createdObjs (restoreDeployment file ns d c).trace,
      x.2.2.resourceVersion = "") ∧
    (∀ x ∈ createdObjs (restoreStatefulSet file ns d c).trace,
      x.2.2.resourceVersion = "") ∧
    (∀ x ∈ createdObjs (restoreServices file ns d c).trace,
      x.2.2.resourceVersion = "") ∧
    (∀ x ∈ createdObjs (restoreServiceAccounts file ns d c).trace,
      x.2.2.resourceVersion = "") ∧
    (∀ x ∈ createdObjs (restoreSecrets file ns d c).trace,
      x.2.2.resourceVersion = "") ∧
    (∀ x ∈ createdObjs (restoreConfigMap file ns d c).trace,
      ∃ f ∈ d, x.2.2 = f.2) := by
  refine ⟨?_, ?_, ?_, ?_, ?_, ?_, ?_, ?_, ?_⟩
  · intro x hx
    rcases scanLoop_createdObjs x hx rfl with ⟨f, hf, rfl⟩
    rfl
  · intro x hx
    rcases scanLoop_createdObjs x hx rfl with ⟨f, hf, rfl⟩
    rfl
  · intro x hx
    rcases scanLoop_createdObjs x hx rfl with ⟨f, hf, rfl⟩
    rfl
  · intro x hx
    rcases scanLoop_createdObjs x hx rfl with ⟨f, hf, rfl⟩
    rfl
  · intro x hx
    rcases scanLoop_createdObjs x hx rfl with ⟨f, hf, rfl⟩
    rfl
  · intro x hx
    rcases dgLoop_createdObjs tfSvc_name x hx rfl with ⟨f, hf, rfl⟩
    rfl
  · intro x hx
    rcases dgLoop_createdObjs tfMeta_name x hx rfl with ⟨f, hf, rfl⟩
    rfl
  · intro x hx
    rcases dgLoop_createdObjs tfMeta_name x hx rfl with ⟨f, hf, rfl⟩
    rfl
  · intro x hx
    rcases scanLoop_createdObjs x hx rfl with ⟨f, hf, rfl⟩
    exact ⟨f, glob_subset f hf, rfl⟩

/-- Witness for the amended claim C2: the service created from the sample
backup reaches create with an empty resourceVersion. -/
theorem restore_revision_clearing_eight_kinds_witness :
    (Kind.service, "demo", tfSvc "demo" sampleSvc) ∈
        createdObjs (restoreServices "f" "demo" sampleDir c0).trace ∧
    (tfSvc "demo" sampleSvc).resourceVersion = "" := by
  have hm : (Kind.service, "demo", tfSvc "demo" sampleSvc) ∈
      createdObjs (restoreServices "f" "demo" sampleDir c0).trace := by decide
  exact ⟨hm,
    (restore_revision_clearing_eight_kinds "f" "demo" sampleDir c0).2.2.2.2.2.1
      _ hm⟩

/-! ## Claim C3 -/

/-- Claim C3: restore is idempotent.  If a full restore run over a backup
directory into a namespace succeeds, running it again from the resulting
cluster state changes nothing: the live object set is the same, the second
run reports success, and it issues no create call (every conflict check finds
the object already present). -/
theorem restore_idempotent (d : Dir) (ns : String) (c : Cluster)
    (h : (restoreResources d ns c).err = none) :
    (restoreResources d ns (restoreResources d ns c).cluster).cluster =
        (restoreResources d ns c).cluster ∧
      (restoreResources d ns (restoreResources d ns c).cluster).err = none ∧
      createdObjs
        (restoreResources d ns (restoreResources d ns c).cluster).trace =
        [] := by
  have hsat := runKinds_sat kindGlobs_good h
  have hnoop :
      (runKinds kindGlobs d ns (restoreResources d ns c).cluster []).cluster =
          (restoreResources d ns c).cluster ∧
        (runKinds kindGlobs d ns
            (restoreResources d ns c).cluster []).err = none ∧
        createdObjs (runKinds kindGlobs d ns
            (restoreResources d ns c).cluster []).trace =
          createdObjs ([] : List Op) :=
    runKinds_noop kindGlobs_good hsat
  exact ⟨hnoop.1, hnoop.2.1, hnoop.2.2⟩

/-- Witness for claim C3 on a concrete backup set: the first restore of the
sample directory into "demo" succeeds, and the theorem gives that the second
run is a no-op issuing no create. -/
theorem restore_idempotent_witness :
    (restoreResources sampleDir "demo"
        (restoreResources sampleDir "demo" c0).cluster).cluster =
        (restoreResources sampleDir "demo" c0).cluster ∧
      (restoreResources sampleDir "demo"
          (restoreResources sampleDir "demo" c0).cluster).err = none ∧
      createdObjs
        (restoreResources sampleDir "demo"
            (restoreResources sampleDir "demo" c0).cluster).trace = [] :=
  restore_idempotent sampleDir "demo" c0 (by decide)

/-! ## Claim C4 -/

/-- Claim C4: the config-map exporter never writes a serialization of the
config-map named kube-root-ca.crt.  Every file present after the export was
either already in the directory, or records an object whose name is not
kube-root-ca.crt (a live config-map with that name is skipped before any
normalization or write). -/
theorem backup_excludes_root_ca_configmap (c : Cluster) (ns : String)
    (d : Dir) :
    ∀ e ∈ (BackupConfigMaps c ns d).1,
      e ∈ d ∨ e.2.name ≠ "kube-root-ca.crt" := by
  intro e he
  rcases mem_skipExportFold he with h1 | ⟨o, ho, hsk, heq⟩
  · exact Or.inl h1
  · right
    rw [heq]
    intro hname2
    rw [show ({ o with ns := "", resourceVersion := "" } : K8sObject).name =
        o.name from rfl] at hname2
    rw [hname2] at hsk
    simp at hsk

def rootCM : K8sObject := ⟨"kube-root-ca.crt", "src", "1", "", none, "ca"⟩

def cRoot : Cluster :=
  ⟨[⟨.configmap, "src", rootCM⟩, ⟨.configmap, "src", sampleCM⟩], []⟩

/-- Witness for claim C4: exporting a namespace that holds both the root-CA
config-map and an ordinary one into an empty directory produces the ordinary
config-map's file, and the theorem applies to it: its recorded name is not
kube-root-ca.crt. -/
theorem backup_excludes_root_ca_configmap_witness :
    (("configmap-app-config.json",
        ({ sampleCM with ns := "", resourceVersion := "" } : K8sObject)) ∈
      (BackupConfigMaps cRoot "src" []).1) ∧
    ((("configmap-app-config.json",
        ({ sampleCM with ns := "", resourceVersion := "" } : K8sObject)) ∈
          ([] : Dir)) ∨
      ({ sampleCM with ns := "", resourceVersion := "" } : K8sObject).name ≠
        "kube-root-ca.crt") := by
  have hm : ("configmap-app-config.json",
      ({ sampleCM with ns := "", resourceVersion := "" } : K8sObject)) ∈
        (BackupConfigMaps cRoot "src" []).1 := by decide
  exact ⟨hm, backup_excludes_root_ca_configmap cRoot "src" [] _ hm⟩

/-! ## Claim C5 -/

/-- Claim C5: the service importer clears both cluster-assigned address
fields on every object it passes to create, regardless of their exported
values; every other kind's importer passes the file's network-address fields
through untouched. -/
theorem service_restore_clears_addresses (file ns : String) (d : Dir)
    (c : Cluster) :
    (∀ x ∈ createdObjs (restoreServices file ns d c).trace,
      x.2.2.clusterIP = "" ∧ x.2.2.clusterIPs = none) ∧
    (∀ x ∈ createdObjs (restorePVC file ns d c).trace,
      ∃ f ∈ d, x.2.2.clusterIP = f.2.clusterIP ∧
        x.2.2.clusterIPs = f.2.clusterIPs) ∧
    (∀ x ∈ createdObjs (restorePod file ns d c).trace,
      ∃ f ∈ d, x.2.2.clusterIP = f.2.clusterIP ∧
        x.2.2.clusterIPs = f.2.clusterIPs) ∧
    (∀ x ∈ createdObjs (restoreReplicaSet file ns d c).trace,
      ∃ f ∈ d, x.2.2.clusterIP = f.2.clusterIP ∧
        x.2.2.clusterIPs = f.2.clusterIPs) ∧
    (∀ x ∈ createdObjs (restoreDeployment file ns d c).trace,
      ∃ f ∈ d, x.2.2.clusterIP = f.2.clusterIP ∧
        x.2.2.clusterIPs = f.2.clusterIPs) ∧
    (∀ x ∈ createdObjs (restoreConfigMap file ns d c).trace,
      ∃ f ∈ d, x.2.2.clusterIP = f.2.clusterIP ∧
        x.2.2.clusterIPs = f.2.clusterIPs) ∧
    (∀ x ∈ createdObjs (restoreStatefulSet file ns d c).trace,
      ∃ f ∈ d, x.2.2.clusterIP = f.2.clusterIP ∧
        x.2.2.clusterIPs = f.2.clusterIPs) ∧
    (∀ x ∈ createdObjs (restoreServiceAccounts file ns d c).trace,
      ∃ f ∈ d, x.2.2.clusterIP = f.2.clusterIP ∧
        x.2.2.clusterIPs = f.2.clusterIPs) ∧
    (∀ x ∈ createdObjs (restoreSecrets file ns d c).trace,
      ∃ f ∈ d, x.2.2.clusterIP = f.2.clusterIP ∧
        x.2.2.clusterIPs = f.2.clusterIPs) := by
  refine ⟨?_, ?_, ?_, ?_, ?_, ?_, ?_, ?_, ?_⟩
  · intro x hx
    rcases dgLoop_createdObjs tfSvc_name x hx rfl with ⟨f, hf, rfl⟩
    exact ⟨rfl, rfl⟩
  · intro x hx
    rcases scanLoop_createdObjs x hx rfl with ⟨f, hf, rfl⟩
    exact ⟨f, glob_subset f hf, rfl, rfl⟩
  · intro x hx
    rcases scanLoop_createdObjs x hx rfl with ⟨f, hf, rfl⟩
    exact ⟨f, glob_subset f hf, rfl, rfl⟩
  · intro x hx
    rcases scanLoop_createdObjs x hx rfl with ⟨f, hf, rfl⟩
    exact ⟨f, glob_subset f hf, rfl, rfl⟩
  · intro x hx
    rcases scanLoop_createdObjs x hx rfl with ⟨f, hf, rfl⟩
    exact ⟨f, glob_subset f hf, rfl, rfl⟩
  · intro x hx
    rcases scanLoop_createdObjs x hx rfl with ⟨f, hf, rfl⟩
    exact ⟨f, glob_subset f hf, rfl, rfl⟩
  · intro x hx
    rcases scanLoop_createdObjs x hx rfl with ⟨f, hf, rfl⟩
    exact ⟨f, glob_subset f hf, rfl, rfl⟩
  · intro x hx
    rcases dgLoop_createdObjs tfMeta_name x hx rfl with ⟨f, hf, rfl⟩
    exact ⟨f, hf, rfl, rfl⟩
  · intro x hx
    rcases dgLoop_createdObjs tfMeta_name x hx rfl with ⟨f, hf, rfl⟩
    exact ⟨f, dirFilter_subset f hf, rfl, rfl⟩

/-- Witness for claim C5: the service created from the sample backup — whose
exported file records a non-empty ClusterIP and ClusterIPs — reaches create
with both address fields cleared. -/
theorem service_restore_clears_addresses_witness :
    (Kind.service, "demo", tfSvc "demo" sampleSvc) ∈
        createdObjs (restoreServices "f" "demo" sampleDir c0).trace ∧
    sampleSvc.clusterIP ≠ "" ∧
    (tfSvc "demo" sampleSvc).clusterIP = "" ∧
    (tfSvc "demo" sampleSvc).clusterIPs = none := by
  have hm : (Kind.service, "demo", tfSvc "demo" sampleSvc) ∈
      createdObjs (restoreServices "f" "demo" sampleDir c0).trace := by decide
  have h2 :=
    (service_restore_clears_addresses "f" "demo" sampleDir c0).1 _ hm
  exact ⟨hm, by decide, h2.1, h2.2⟩

/-! ## Claim C6 -/

theorem nodup_fnames_pre {objs : List K8sObject} (pre : String)
    (h : (objs.map (fun o => o.name)).Nodup) :
    (objs.map (fun o => pre ++ o.name ++ ".json")).Nodup := by
  have heq : objs.map (fun o => pre ++ o.name ++ ".json") =
      (objs.map (fun o => o.name)).map (fun n => pre ++ n ++ ".json") := by
    rw [List.map_map]
    rfl
  rw [heq]
  exact h.map (fun a b hab => strAppend_cancel_left_right hab)

theorem nodup_fnames_bare {objs : List K8sObject}
    (h : (objs.map (fun o => o.name)).Nodup) :
    (objs.map (fun o => o.name ++ ".json")).Nodup := by
  have heq : objs.map (fun o => o.name ++ ".json") =
      (objs.map (fun o => o.name)).map (fun n => n ++ ".json") := by
    rw [List.map_map]
    rfl
  rw [heq]
  exact h.map (fun a b hab => strAppend_cancel_right hab)

/-- Claim C6: config-map, stateful-set and service exports never modify a
file that already exists at the destination path (and re-running those
exports over their own output is the identity), while the other six kinds
always write the current serialization, replacing any prior content (stated
under the invariant that live names within one kind and namespace are
distinct, which the cluster guarantees). -/
theorem export_skip_if_exists_and_overwrite (c : Cluster) (ns : String)
    (d : Dir) :
    (∀ fn o, lookupFile d fn = some o →
      lookupFile (BackupConfigMaps c ns d).1 fn = some o) ∧
    (∀ fn o, lookupFile d fn = some o →
      lookupFile (BackupStatefulSet c ns d).1 fn = some o) ∧
    (∀ fn o, lookupFile d fn = some o →
      lookupFile (BackupServices c ns d).1 fn = some o) ∧
    (BackupConfigMaps c ns (BackupConfigMaps c ns d).1).1 =
      (BackupConfigMaps c ns d).1 ∧
    (BackupStatefulSet c ns (BackupStatefulSet c ns d).1).1 =
      (BackupStatefulSet c ns d).1 ∧
    (BackupServices c ns (BackupServices c ns d).1).1 =
      (BackupServices c ns d).1 ∧
    (((listObjs c .pvc ns).map (fun o => o.name)).Nodup →
      ∀ x ∈ listObjs c .pvc ns,
        lookupFile (BackupPVCs c ns d).1 (x.name ++ ".json") = some x) ∧
    (((listObjs c .pod ns).map (fun o => o.name)).Nodup →
      ∀ x ∈ listObjs c .pod ns,
        lookupFile (BackupPods c ns d).1 ("pod-" ++ x.name ++ ".json") =
          some x) ∧
    (((listObjs c .replicaset ns).map (fun o => o.name)).Nodup →
      ∀ x ∈ listObjs c .replicaset ns,
        lookupFile (BackupReplicaSets c ns d).1
          ("replicaset-" ++ x.name ++ ".json") = some x) ∧
    (((listObjs c .deployment ns).map (fun o => o.name)).Nodup →
      ∀ x ∈ listObjs c .deployment ns,
        lookupFile (BackupDeployments c ns d).1
          ("deployment-" ++ x.name ++ ".json") = some x) ∧
    (((listObjs c .serviceaccount ns).map (fun o => o.name)).Nodup →
      ∀ x ∈ listObjs c .serviceaccount ns,
        lookupFile (BackupServiceAccounts c ns d).1
          ("serviceaccount-" ++ x.name ++ ".json") = some x) ∧
    (((listObjs c .secret ns).map (fun o => o.name)).Nodup →
      ∀ x ∈ listObjs c .secret ns,
        lookupFile (BackupSecrets c ns d).1
          ("secret-" ++ x.name ++ ".json") = some x) := by
  refine ⟨?_, ?_, ?_, ?_, ?_, ?_, ?_, ?_, ?_, ?_, ?_, ?_⟩
  · intro fn o h
    exact lookupFile_skipExportFold h
  · intro fn o h
    exact lookupFile_skipExportFold h
  · intro fn o h
    exact lookupFile_skipExportFold h
  · exact skipExportFold_idem _ _ _ d
  · exact skipExportFold_idem _ _ _ d
  · exact skipExportFold_idem _ _ _ d
  · intro hnd x hx
    exact lookupFile_plainExportFold_self hx (nodup_fnames_bare hnd) d
  · intro hnd x hx
    exact lookupFile_plainExportFold_self hx (nodup_fnames_pre "pod-" hnd) d
  · intro hnd x hx
    exact lookupFile_plainExportFold_self hx
      (nodup_fnames_pre "replicaset-" hnd) d
  · intro hnd x hx
    exact lookupFile_plainExportFold_self hx
      (nodup_fnames_pre "deployment-" hnd) d
  · intro hnd x hx
    exact lookupFile_plainExportFold_self hx
      (nodup_fnames_pre "serviceaccount-" hnd) d
  · intro hnd x hx
    exact lookupFile_plainExportFold_self hx
      (nodup_fnames_pre "secret-" hnd) d

def staleCM : K8sObject := ⟨"app-config", "", "", "", none, "old-cm-data"⟩

def dirC6 : Dir := [("configmap-app-config.json", staleCM),
  ("pod-p1.json", staleCM)]

def cSrc : Cluster :=
  ⟨[⟨.configmap, "src", sampleCM⟩, ⟨.pod, "src", samplePod⟩], []⟩

/-- Witness for claim C6: over a directory that already holds a (stale)
config-map file and a (stale) pod file, the config-map exporter leaves the
stale config-map bytes untouched, while the pod exporter replaces the stale
pod file with the current serialization. -/
theorem export_skip_if_exists_and_overwrite_witness :
    lookupFile dirC6 "configmap-app-config.json" = some staleCM ∧
    lookupFile (BackupConfigMaps cSrc "src" dirC6).1
      "configmap-app-config.json" = some staleCM ∧
    (((listObjs cSrc .pod "src").map (fun o => o.name)).Nodup ∧
      samplePod ∈ listObjs cSrc .pod "src") ∧
    lookupFile (BackupPods cSrc "src" dirC6).1 ("pod-" ++ samplePod.name ++
      ".json") = some samplePod := by
  have h1 : lookupFile dirC6 "configmap-app-config.json" = some staleCM := by
    decide
  have hnd : ((listObjs cSrc .pod "src").map (fun o => o.name)).Nodup := by
    decide
  have hx : samplePod ∈ listObjs cSrc .pod "src" := by decide
  refine ⟨h1, ?_, ⟨hnd, hx⟩, ?_⟩
  · exact (export_skip_if_exists_and_overwrite cSrc "src" dirC6).1 _ _ h1
  · exact (export_skip_if_exists_and_overwrite cSrc "src"
      dirC6).2.2.2.2.2.2.2.1 hnd samplePod hx

/-! ## Claim C8 -/

theorem pvcPat_not_prefixOf_json {nd : List Char}
    (h : ['p', 'v', 'c', '-'].isPrefixOf nd = false) :
    ['p', 'v', 'c', '-'].isPrefixOf (nd ++ ['.', 'j', 's', 'o', 'n']) =
      false := by
  match nd with
  | [] => decide
  | [a] =>
    have hv : ('v' == '.') = false := rfl
    simp [List.isPrefixOf, hv]
  | [a, b] =>
    have hc : ('c' == '.') = false := rfl
    simp [List.isPrefixOf, hc]
  | [a, b, c2] =>
    have hd : ('-' == '.') = false := rfl
    simp [List.isPrefixOf, hd]
  | a :: b :: c2 :: d2 :: t =>
    simp only [List.isPrefixOf, List.cons_append] at h ⊢
    simpa using (by simpa using h)

theorem strStarts_bare_json {name : String}
    (h : strStarts "pvc-" name = false) :
    strStarts "pvc-" (name ++ ".json") = false := by
  unfold strStarts at h ⊢
  rw [String.data_append]
  have hpat : ("pvc-" : String).data = ['p', 'v', 'c', '-'] := rfl
  have hsuf : (".json" : String).data = ['.', 'j', 's', 'o', 'n'] := rfl
  rw [hpat, hsuf]
  rw [hpat] at h
  exact pvcPat_not_prefixOf_json h

/-- Claim C8: persistent-volume-claim export writes each object to the bare
filename `<name>.json` with no kind prefix, while the importer discovers
candidates only through the `pvc-*.json` glob; consequently the exported file
of any PVC whose name does not start with "pvc-" is never in the importer's
candidate set. -/
theorem pvc_naming_asymmetry (c : Cluster) (ns : String) (d : Dir) :
    (((listObjs c .pvc ns).map (fun o => o.name)).Nodup →
      ∀ x ∈ listObjs c .pvc ns,
        lookupFile (BackupPVCs c ns d).1 (x.name ++ ".json") = some x) ∧
    (∀ f ∈ glob d "pvc-", strStarts "pvc-" f.1 = true) ∧
    (∀ name, strStarts "pvc-" name = false →
      ∀ (d2 : Dir) (o : K8sObject), (name ++ ".json", o) ∉ glob d2 "pvc-") := by
  refine ⟨?_, ?_, ?_⟩
  · intro hnd x hx
    exact lookupFile_plainExportFold_self hx (nodup_fnames_bare hnd) d
  · intro f hf
    have hm := (List.mem_filter.mp hf).2
    unfold matchGlob at hm
    simp only [Bool.and_eq_true] at hm
    exact hm.1.1
  · intro name hns d2 o hmem
    have hm := (List.mem_filter.mp hmem).2
    unfold matchGlob at hm
    simp only [Bool.and_eq_true] at hm
    have h1 := hm.1.1
    rw [strStarts_bare_json hns] at h1
    cases h1

def plainPVC : K8sObject := ⟨"mypvc", "src", "3", "", none, "pvc-spec"⟩

def cPVC : Cluster := ⟨[⟨.pvc, "src", plainPVC⟩], []⟩

/-- Witness for claim C8: a PVC named "mypvc" is exported to the bare file
"mypvc.json", its name does not start with "pvc-", and the theorem yields
that this file is excluded from the importer's candidate glob of the
resulting backup directory. -/
theorem pvc_naming_asymmetry_witness :
    (((listObjs cPVC .pvc "src").map (fun o => o.name)).Nodup ∧
      plainPVC ∈ listObjs cPVC .pvc "src") ∧
    lookupFile (BackupPVCs cPVC "src" []).1 ("mypvc" ++ ".json") =
      some plainPVC ∧
    strStarts "pvc-" "mypvc" = false ∧
    ("mypvc" ++ ".json", plainPVC) ∉ glob (BackupPVCs cPVC "src" []).1
      "pvc-" := by
  have hnd : ((listObjs cPVC .pvc "src").map (fun o => o.name)).Nodup := by
    decide
  have hx : plainPVC ∈ listObjs cPVC .pvc "src" := by decide
  have hns : strStarts "pvc-" "mypvc" = false := by decide
  refine ⟨⟨hnd, hx⟩, ?_, hns, ?_⟩
  · exact (pvc_naming_asymmetry cPVC "src" []).1 hnd plainPVC hx
  · exact (pvc_naming_asymmetry cPVC "src" []).2.2 "mypvc" hns _ plainPVC

/-! ## Claim C7 -/

/-- Claim C7: the direct-get importers (service, service-account, secret)
issue exactly one get-by-name per file they process; a NotFound result means
no conflict and the object is created (afterwards the object is live); a
successful get means conflict and the object is skipped without error and
without any create; a get error other than NotFound aborts the whole import
call for that kind with that error. -/
theorem direct_get_conflict_strategy (file ns : String) (d : Dir)
    (c : Cluster) :
    ((restoreServices file ns d c).err = none →
      countGets (restoreServices file ns d c).trace =
        (dirFilter d "service-").length) ∧
    ((restoreServices file ns d c).err = none →
      ∀ f ∈ dirFilter d "service-",
        hasKey (restoreServices file ns d c).cluster.live .service ns
          f.2.name = true) ∧
    ((∀ f ∈ dirFilter d "service-",
        hasKey c.live .service ns f.2.name = true ∧
          (Kind.service, ns, f.2.name) ∉ c.getFaults) →
      (restoreServices file ns d c).cluster = c ∧
        (restoreServices file ns d c).err = none ∧
        createdObjs (restoreServices file ns d c).trace = []) ∧
    ((∃ f ∈ dirFilter d "service-",
        (Kind.service, ns, f.2.name) ∈ c.getFaults) →
      (restoreServices file ns d c).err = some .getError) ∧
    ((restoreServiceAccounts file ns d c).err = none →
      countGets (restoreServiceAccounts file ns d c).trace = d.length) ∧
    ((restoreServiceAccounts file ns d c).err = none →
      ∀ f ∈ d,
        hasKey (restoreServiceAccounts file ns d c).cluster.live
          .serviceaccount ns f.2.name = true) ∧
    ((∀ f ∈ d,
        hasKey c.live .serviceaccount ns f.2.name = true ∧
          (Kind.serviceaccount, ns, f.2.name) ∉ c.getFaults) →
      (restoreServiceAccounts file ns d c).cluster = c ∧
        (restoreServiceAccounts file ns d c).err = none ∧
        createdObjs (restoreServiceAccounts file ns d c).trace = []) ∧
    ((∃ f ∈ d, (Kind.serviceaccount, ns, f.2.name) ∈ c.getFaults) →
      (restoreServiceAccounts file ns d c).err = some .getError) ∧
    ((restoreSecrets file ns d c).err = none →
      countGets (restoreSecrets file ns d c).trace =
        (dirFilter d "secret-").length) ∧
    ((restoreSecrets file ns d c).err = none →
      ∀ f ∈ dirFilter d "secret-",
        hasKey (restoreSecrets file ns d c).cluster.live .secret ns
          f.2.name = true) ∧
    ((∀ f ∈ dirFilter d "secret-",
        hasKey c.live .secret ns f.2.name = true ∧
          (Kind.secret, ns, f.2.name) ∉ c.getFaults) →
      (restoreSecrets file ns d c).cluster = c ∧
        (restoreSecrets file ns d c).err = none ∧
        createdObjs (restoreSecrets file ns d c).trace = []) ∧
    ((∃ f ∈ dirFilter d "secret-",
        (Kind.secret, ns, f.2.name) ∈ c.getFaults) →
      (restoreSecrets file ns d c).err = some .getError) := by
  refine ⟨?_, ?_, ?_, ?_, ?_, ?_, ?_, ?_, ?_, ?_, ?_, ?_⟩
  · intro h
    have hg := dgLoop_gets h
    rw [show countGets ([] : List Op) = 0 from rfl, Nat.zero_add] at hg
    exact hg
  · intro h f hf
    exact (dgLoop_sat tfSvc_name h f hf).1
  · intro h
    obtain ⟨h1, h2, h3⟩ := dgLoop_noop tfSvc_name h
    refine ⟨h1, h2, ?_⟩
    rw [createdObjs_eq_nil_iff]
    intro k2 n2 o2 hmem
    rcases h3 _ hmem with hin | ⟨f, hf, heq⟩
    · exact absurd hin (List.not_mem_nil _)
    · cases heq
  · intro h
    exact dgLoop_abort_on_fault tfSvc_name h
  · intro h
    have hg := dgLoop_gets h
    rw [show countGets ([] : List Op) = 0 from rfl, Nat.zero_add] at hg
    exact hg
  · intro h f hf
    exact (dgLoop_sat tfMeta_name h f hf).1
  · intro h
    obtain ⟨h1, h2, h3⟩ := dgLoop_noop tfMeta_name h
    refine ⟨h1, h2, ?_⟩
    rw [createdObjs_eq_nil_iff]
    intro k2 n2 o2 hmem
    rcases h3 _ hmem with hin | ⟨f, hf, heq⟩
    · exact absurd hin (List.not_mem_nil _)
    · cases heq
  · intro h
    exact dgLoop_abort_on_fault tfMeta_name h
  · intro h
    have hg := dgLoop_gets h
    rw [show countGets ([] : List Op) = 0 from rfl, Nat.zero_add] at hg
    exact hg
  · intro h f hf
    exact (dgLoop_sat tfMeta_name h f hf).1
  · intro h
    obtain ⟨h1, h2, h3⟩ := dgLoop_noop tfMeta_name h
    refine ⟨h1, h2, ?_⟩
    rw [createdObjs_eq_nil_iff]
    intro k2 n2 o2 hmem
    rcases h3 _ hmem with hin | ⟨f, hf, heq⟩
    · exact absurd hin (List.not_mem_nil _)
    · cases heq
  · intro h
    exact dgLoop_abort_on_fault tfMeta_name h

def sampleSecret : K8sObject := ⟨"s1", "orig", "4", "", none, "secret-data"⟩

def dirC7 : Dir := [("secret-s1.json", sampleSecret)]

def cFault : Cluster := ⟨[], [(.secret, "demo", "s1")]⟩

/-- Witness for claim C7: restoring one secret file into a fault-free empty
cluster succeeds with exactly one get issued, and the same restore against a
cluster whose get on that secret fails with a non-NotFound error aborts with
that error. -/
theorem direct_get_conflict_strategy_witness :
    ((restoreSecrets "f" "demo" dirC7 c0).err = none ∧
      countGets (restoreSecrets "f" "demo" dirC7 c0).trace =
        (dirFilter dirC7 "secret-").length) ∧
    ((Kind.secret, "demo",
        (("secret-s1.json", sampleSecret) : String × K8sObject).2.name) ∈
      cFault.getFaults ∧
      (restoreSecrets "f" "demo" dirC7 cFault).err = some .getError) := by
  have herr : (restoreSecrets "f" "demo" dirC7 c0).err = none := by decide
  have hfl : (Kind.secret, "demo",
      (("secret-s1.json", sampleSecret) : String × K8sObject).2.name) ∈
        cFault.getFaults := by decide
  have hfm : (("secret-s1.json", sampleSecret) : String × K8sObject) ∈
      dirFilter dirC7 "secret-" := by decide
  refine ⟨⟨herr, ?_⟩, ⟨hfl, ?_⟩⟩
  · exact (direct_get_conflict_strategy "f" "demo" dirC7
      c0).2.2.2.2.2.2.2.2.1 herr
  · exact (direct_get_conflict_strategy "f" "demo" dirC7
      cFault).2.2.2.2.2.2.2.2.2.2.2 ⟨_, hfm, hfl⟩

/-! ## Claim C9 -/

/-- Claim C9: across export and import, the only cluster-mutating call ever
issued is create.  A full backup run issues no mutating call at all, a full
restore run's mutating calls are all creates, and consequently every live
object present before a restore is still present after it. -/
theorem only_create_mutates (c : Cluster) (ns : String) (d : Dir) :
    (∀ op ∈ (RunBackup c ns d).2, isMutOp op = false) ∧
    (∀ op ∈ (restoreResources d ns c).trace,
      isMutOp op = true → ∃ k2 n2 o2, op = Op.createOp k2 n2 o2) ∧
    (∀ e ∈ c.live, e ∈ (restoreResources d ns c).cluster.live) := by
  refine ⟨?_, ?_, ?_⟩
  · intro op hop
    rw [RunBackup_trace] at hop
    simp only [List.mem_cons, List.not_mem_nil, or_false] at hop
    rcases hop with rfl | rfl | rfl | rfl | rfl | rfl | rfl | rfl | rfl <;>
      rfl
  · intro op hop hmut
    rcases runKinds_mut kindGlobs_good op hop with h1 | h1
    · exact absurd h1 (List.not_mem_nil _)
    · exact h1 hmut
  · intro e he
    exact runKinds_mono kindGlobs_good he

def cPre : Cluster := ⟨[⟨.secret, "demo", sampleSecret⟩], []⟩

/-- Witness for claim C9: the List call issued by the backup of the sample
cluster is not mutating, and a pre-existing live secret survives a restore of
the sample backup unchanged. -/
theorem only_create_mutates_witness :
    (Op.listOp .pvc "demo") ∈ (RunBackup cPre "demo" []).2 ∧
    isMutOp (Op.listOp .pvc "demo") = false ∧
    (⟨.secret, "demo", sampleSecret⟩ : Entry) ∈ cPre.live ∧
    (⟨.secret, "demo", sampleSecret⟩ : Entry) ∈
      (restoreResources sampleDir "demo" cPre).cluster.live := by
  have h1 : (Op.listOp .pvc "demo") ∈ (RunBackup cPre "demo" []).2 := by
    decide
  have h2 : (⟨.secret, "demo", sampleSecret⟩ : Entry) ∈ cPre.live := by
    decide
  refine ⟨h1, (only_create_mutates cPre "demo" []).1 _ h1, h2, ?_⟩
  exact (only_create_mutates cPre "demo" sampleDir).2.2 _ h2

/-! ## Claim C10 -/

/-- Claim C10: the service-account importer scans every file in the backup
directory with no name filter — on success it has issued one get per file of
the whole directory — and for every file, whatever kind it was exported as,
a service-account carrying that file's recorded object name is live in the
target namespace afterwards; on a cluster with no injected get faults the
call always succeeds. -/
theorem serviceaccount_restore_scans_all_files (file ns : String) (d : Dir)
    (c : Cluster) :
    ((restoreServiceAccounts file ns d c).err = none →
      countGets (restoreServiceAccounts file ns d c).trace = d.length) ∧
    ((restoreServiceAccounts file ns d c).err = none →
      ∀ f ∈ d, ∃ e ∈ (restoreServiceAccounts file ns d c).cluster.live,
        e.kind = .serviceaccount ∧ e.ens = ns ∧ e.obj.name = f.2.name) ∧
    ((∀ f ∈ d, (Kind.serviceaccount, ns, f.2.name) ∉ c.getFaults) →
      (restoreServiceAccounts file ns d c).err = none) := by
  refine ⟨?_, ?_, ?_⟩
  · intro h
    have hg := dgLoop_gets h
    rw [show countGets ([] : List Op) = 0 from rfl, Nat.zero_add] at hg
    exact hg
  · intro h f hf
    exact hasKey_iff.mp (dgLoop_sat tfMeta_name h f hf).1
  · intro h
    exact dgLoop_success tfMeta_name h

def dirC10 : Dir := [("pod-p1.json", samplePod)]

/-- Witness for claim C10: a backup directory holding only a pod snapshot
still drives the service-account importer — it succeeds on a fault-free
cluster, and afterwards a service-account named after the pod ("p1") is live
in the target namespace. -/
theorem serviceaccount_restore_scans_all_files_witness :
    (restoreServiceAccounts "f" "demo" dirC10 c0).err = none ∧
    ∃ e ∈ (restoreServiceAccounts "f" "demo" dirC10 c0).cluster.live,
      e.kind = .serviceaccount ∧ e.ens = "demo" ∧ e.obj.name = "p1" := by
  have herr : (restoreServiceAccounts "f" "demo" dirC10 c0).err = none :=
    (serviceaccount_restore_scans_all_files "f" "demo" dirC10 c0).2.2
      (by intro f hf; simp [c0])
  refine ⟨herr, ?_⟩
  have := (serviceaccount_restore_scans_all_files "f" "demo" dirC10 c0).2.1
    herr ("pod-p1.json", samplePod) (by decide)
  exact this
